import Mathlib

set_option maxHeartbeats 1000000

/-!
# Verification of the Growatt device-command subsystem

Shallow embedding of the device-command subsystem of `src/lib/growatt.js`:
`comInverter`, `getInverterSetting`, `setInverterSetting` and
`getInverterCommunication`, together with the collaborator modules the
source `require`s (`./queue`, `./growatttype`, `./parsein`) which are not
part of the source tree and are therefore modelled from the spec where
noted.

Conventions of the embedding:
* JS objects used as string-keyed records (the `param` url object, the
  caller's `val` map, the schema tables) become association lists that
  keep JS insertion-order semantics: updating an existing key keeps its
  position, a fresh key is appended at the end.  `URLSearchParams(param)`
  serialises exactly this ordered list, so the final association list *is*
  the encoded wire request.
* The protocol (single-flight queue + executor + transport) is modelled as
  a fuel-indexed interpreter over an explicit system state; the transport
  is an oracle list of responses, consumed one per send.
-/

namespace Growatt

/-- String-keyed association list standing for a JS object whose values are
strings (the url/param object and the caller-supplied value map). -/
abbrev AList := List (String × String)

/-- JS property lookup on an association list: first binding wins. -/
def alookup {α β : Type} [DecidableEq α] : List (α × β) → α → Option β
  | [], _ => none
  | (k', v) :: rest, k => if k' = k then some v else alookup rest k

/-- JS property assignment `obj[k] = v`: an existing key keeps its position
(and every binding of that key is overwritten), a fresh key is appended at
the end, exactly as JS object insertion order behaves. -/
def setKey (l : AList) (k v : String) : AList :=
  if (alookup l k).isSome then
    l.map (fun kv => if kv.1 = k then (k, v) else kv)
  else l ++ [(k, v)]

/-- Keys of an association list, in order. -/
def keysOf {α β : Type} (l : List (α × β)) : List α :=
  l.map Prod.fst

/-! ## Structured transport payloads

`comInverter` inspects only `res.data`'s truthiness, the presence of its
`success` property and the value of its `msg` property; everything else in
the payload is opaque to the executor and is abstracted into `data`. -/

/-- A structured (truthy) `res.data` payload. -/
structure Payload where
  success : Option Bool
  msg : Option String
  data : String
deriving DecidableEq, Repr

/-! ## Parameter codec (`./parsein`)

Modelled from the spec: the module `./parsein` is required by the source
but missing from the source tree.  §4.2 describes it as a pure table of
converters, one per declared semantic type — bounded integer, fixed-point
decimal, enumerated code, raw string — each returning the converted wire
value together with a validity flag. -/

/-- Modelled from the spec: bounded-integer semantic type — parse the
supplied value as an integer and require it to lie in `[lo, hi]`. -/
def parseNumInRange (lo hi : Int) (v : String) : String × Bool :=
  match v.toInt? with
  | some n => if lo ≤ n ∧ n ≤ hi then (toString n, true) else (v, false)
  | none => (v, false)

/-- Modelled from the spec: fixed-point decimal semantic type — the value
is an integer count of tenths in `[lo, hi]`, transmitted as-is. -/
def parseDecimalTenths (lo hi : Int) (v : String) : String × Bool :=
  match v.toInt? with
  | some n => if lo ≤ n ∧ n ≤ hi then (toString n, true) else (v, false)
  | none => (v, false)

/-- Modelled from the spec: the `PARSEIN` converter table, keyed by the
semantic-type tag of a declared parameter.  Pure and total; an unknown
semantic type converts nothing and reports failure. -/
def PARSEIN (ty : String) (v : String) : String × Bool :=
  if ty = "INUM_0_100" then parseNumInRange 0 100 v
  else if ty = "INUM_0_24" then parseNumInRange 0 24 v
  else if ty = "DEC_0_100" then parseDecimalTenths 0 1000 v
  else if ty = "BOOL" then (if v = "0" ∨ v = "1" then (v, true) else (v, false))
  else if ty = "STR" then (v, true)
  else (v, false)

/-! ## Schema registry (`./growatttype`)

Modelled from the spec: the module `./growatttype` is required by the
source but missing from the source tree.  §6 gives its data shape: device
type tag → function name → descriptor
`{action, paramId?, direction, params: {name: {type, validate}}, resultParser?}`.
The fields below carry the names the source reads off the descriptor
(`b.paramId`, `b.type`, `b.param`, `b.parseRet`, and the per-device-type
action strings `gt.readParam` / `gt.writeParam`). -/

/-- A declared parameter: display name and semantic-type tag
(`p[name].name`, `p[name].type` in the source). -/
structure ParamDesc where
  name : String
  type : String
deriving DecidableEq, Repr

/-- A function descriptor (`gt.comInverter[func]` in the source).  The
result parser is the pure payload-interpretation function of §9. -/
structure ComDesc where
  name : String
  paramId : Option String := none
  type : Option String := none
  param : Option (List (String × ParamDesc)) := none
  parseRet : Option (Payload → Payload) := none

/-- A device-type entry (`GROWATTTYPE[type]` in the source), restricted to
the fields the command subsystem reads. -/
structure GrowattTypeEntry where
  readParam : Option String := none
  writeParam : Option String := none
  comInverter : Option (List (String × ComDesc)) := none

/-- The schema registry: device-type tag → entry. -/
abbrev Registry := List (String × GrowattTypeEntry)

/-- `gt[paramorgi.action]` where the action is `'readParam'` or
`'writeParam'`: `some` exactly when that field of the entry is a string. -/
def gtActionField (g : GrowattTypeEntry) (a : String) : Option String :=
  if a = "readParam" then g.readParam
  else if a = "writeParam" then g.writeParam
  else none

/-- `gt[paramorgi.base]` where the base names an object-valued field:
only `'comInverter'` is object-valued on an entry. -/
def gtBaseField (g : GrowattTypeEntry) (b : String) : Option (List (String × ComDesc)) :=
  if b = "comInverter" then g.comInverter else none

/-! ## Errors

Each constructor carries exactly the data the corresponding
`new Error(...)` message in `comInverter` interpolates. -/

/-- The error kinds `comInverter` can deliver. -/
inductive GError
  | unknownAction (action ty : String)
  | unknownFunc (func ty : String)
  | valueIncorrect (pname ptype func ty : String)
  | valueMissing (pname func ty : String)
  | notConnected
  | transport (msg : String)
  | serverReject (payload : Payload)
  | unexpectedResponse (errorMess : Bool)
deriving DecidableEq, Repr

/-- The `paramorgi` argument of `comInverter`: the mutable url object, the
optional caller value map, and the action/base/func selectors.  All in-repo
callers pass `action` and `base` as strings. -/
structure ParamOrgi where
  url : AList
  val : Option AList := none
  action : String
  base : String := "comInverter"
  func : String
deriving DecidableEq

/-- The `forEach` over the declared parameters (source lines 863-875):
for each declared name, require a supplied value, convert it through
`PARSEIN`, write the converted value onto the url object, and abort with
the naming error on a missing or invalid value. -/
def encodeParams (ty func : String) (plist : List (String × ParamDesc)) (vals : AList)
    (url : AList) : Except GError AList :=
  match plist with
  | [] => .ok url
  | (n, d) :: rest =>
    match alookup vals n with
    | some v =>
      let cv := PARSEIN d.type v
      if cv.2 then encodeParams ty func rest vals (setKey url n cv.1)
      else .error (.valueIncorrect d.name d.type func ty)
    | none => .error (.valueMissing d.name func ty)

/-- Source lines 859-877: the `type`/parameter-encoding tail of the
descriptor application.  `pc` carries the url object after the `paramId`
step together with the captured `checkRet`: copy `type` and, when the url
object has a `type` property, the caller supplied a value object and the
descriptor declares parameters, encode the values onto the url object. -/
def descTail (ty func : String) (b : ComDesc) (val : Option AList)
    (pc : AList × Option (Payload → Payload)) :
    Except GError (AList × Option (Payload → Payload)) :=
  match b.type with
  | some t =>
    if (alookup pc.1 "type").isSome then
      let url3 := setKey pc.1 "type" t
      match val, b.param with
      | some vals, some plist =>
        match encodeParams ty func plist vals url3 with
        | .ok url4 => .ok (url4, pc.2)
        | .error e => .error e
      | _, _ => .ok (url3, pc.2)
    else .ok (pc.1, pc.2)
  | none => .ok (pc.1, pc.2)

/-- Source lines 855-877: apply a found function descriptor `b` to the
url object `url1` (which already carries the resolved action): copy
`paramId` and capture the result parser `checkRet` — both only when the
url object has a `paramId` property — then run the `type`/encoding tail
(`descTail`). -/
def descApply (ty func : String) (b : ComDesc) (val : Option AList) (url1 : AList) :
    Except GError (AList × Option (Payload → Payload)) :=
  descTail ty func b val
    (match b.paramId with
     | some pid =>
       if (alookup url1 "paramId").isSome then (setKey url1 "paramId" pid, b.parseRet)
       else (url1, none)
     | none => (url1, none))

/-- The synchronous validation/encoding phase of `comInverter` (source
lines 841-886), run before any queueing: resolve the action string onto
the url object, look up the function descriptor, and apply it
(`descApply`).  Returns the finished url object (the encoded request) and
`checkRet`. -/
def comInverterValidate (gt : Option GrowattTypeEntry) (ty : String) (po : ParamOrgi) :
    Except GError (AList × Option (Payload → Payload)) :=
  match gt with
  | none => .error (.unknownAction po.action ty)
  | some g =>
    match gtActionField g po.action with
    | none => .error (.unknownAction po.action ty)
    | some a =>
      match (gtBaseField g po.base).bind (fun m => alookup m po.func) with
      | none => .error (.unknownFunc po.func ty)
      | some b => descApply ty po.func b po.val (setKey po.url "action" a)

/-- The `param` object built by `getInverterSetting` (source line 827). -/
def getInverterSettingPO (func serialNum : String) : ParamOrgi :=
  { url := [("action", ""), ("paramId", ""), ("serialNum", serialNum),
            ("startAddr", "-1"), ("endAddr", "-1")],
    val := none, action := "readParam", base := "comInverter", func := func }

/-- The `param` object built by `setInverterSetting` (source line 833). -/
def setInverterSettingPO (func serialNum : String) (val : AList) : ParamOrgi :=
  { url := [("action", ""), ("serialNum", serialNum), ("type", "")],
    val := some val, action := "writeParam", base := "comInverter", func := func }

/-! ## The single-flight queue and the executor protocol (`./queue` + source lines 888-931)

The module `./queue` is required by the source but missing from the source
tree; the queue discipline below is modelled from the spec (§4.3): a FIFO
waiting list, the head entry holds the execution slot, `complete()`
(`taskFinished` in the source) removes the head and grants the new head,
and the resolve/reject pair handed to the entry releases the slot when the
entry reaches a terminal state (each entry is completed at most once).

The executor itself (how a granted command is sent, and how each
acknowledgment shape is handled) is transcribed from `comInverter`,
source lines 888-931. The transport is an oracle list of structured
responses, consumed one per send; an exhausted oracle leaves the command
in flight. -/

/-- The transport's answer to one send: a structured (truthy) `res.data`,
a falsy `res.data` (with the `errorMess` flag of the fallback path check),
or a raised transport error (the `.catch` path). -/
inductive TResp
  | ok (p : Payload)
  | okEmpty (errorMess : Bool)
  | err (msg : String)
deriving DecidableEq, Repr

/-- A command's final delivery: resolved with a payload value or rejected
with one error. -/
inductive Outcome
  | resolved (p : Payload)
  | rejected (e : GError)
deriving DecidableEq, Repr

/-- Observable protocol events, in order: slot grant, request send (with
the encoded wire request), settlement of the command's promise, and slot
release (`complete()` / `taskFinished`). -/
inductive Event
  | granted (cid : Nat)
  | sent (cid : Nat) (req : AList)
  | settled (cid : Nat) (o : Outcome)
  | completed (cid : Nat)
deriving DecidableEq, Repr

/-- A queue entry: the identity of the originating command (stable across
retry round-trips), the device type, the `paramorgi` (whose url object
holds the encoded request), and the captured `checkRet` parser. -/
structure Task where
  cid : Nat
  ty : String
  po : ParamOrgi
  checkRet : Option (Payload → Payload)

/-- The whole system state: session connectivity, the FIFO waiting list
(head = slot holder when non-empty), the transport oracle, the settled
outcomes in settlement order, and the event trace. -/
structure St where
  connected : Bool
  waiting : List Task
  responses : List TResp
  settled : List (Nat × Outcome)
  events : List Event

/-- One call of `comInverter` (already carrying a built `paramorgi`):
run the synchronous validation/encoding phase; on failure reject at once —
the queue is never touched — otherwise append a queue entry carrying the
encoded url and the captured `checkRet` (`queue.addTask`, source line
888; enqueue-at-tail is the spec-modelled queue discipline). -/
def submit (reg : Registry) (ty : String) (cid : Nat) (po : ParamOrgi) (st : St) : St :=
  match comInverterValidate (alookup reg ty) ty po with
  | .error e =>
      { st with settled := st.settled ++ [(cid, .rejected e)],
                events := st.events ++ [.settled cid (.rejected e)] }
  | .ok (url, cr) =>
      { st with waiting := st.waiting ++
          [{ cid := cid, ty := ty, po := { po with url := url }, checkRet := cr }] }

/-- Submit a batch of commands in order (each a `(cid, deviceType,
paramorgi)` triple). -/
def submitAll (reg : Registry) (cmds : List (Nat × String × ParamOrgi)) (st : St) : St :=
  cmds.foldl (fun s c => submit reg c.2.1 c.1 c.2.2 s) st

/-- Settle the slot-holding entry terminally: record the outcome, emit the
given pre-events then the settlement and the slot release, drop the entry
and consume the oracle prefix `rs`. -/
def settleTask (st : St) (t : Task) (rest : List Task) (rs : List TResp) (o : Outcome)
    (pre : List Event) : St :=
  { st with waiting := rest, responses := rs,
            settled := st.settled ++ [(t.cid, o)],
            events := st.events ++ pre ++ [.settled t.cid o, .completed t.cid] }

/-- Drive the queue: grant the head entry the slot and transcribe source
lines 888-931 — reject unconnected sessions without touching the
transport; otherwise send the encoded request and interpret the next
oracle response: transport error → reject with it (`connected` is *not*
modified on this path); falsy data → reject as unexpected response;
structured data without a `success` property → reject carrying the
payload; `success` present and `msg === ''` → `taskFinished()` then
re-submit the identical `paramorgi` (recursive `comInverter`, re-entering
the queue at the tail); otherwise terminal success → resolve through
`checkRet` when one was captured, else with the raw payload.  Fuel only
bounds the number of interpreter steps. -/
def runQueue (reg : Registry) : Nat → St → St
  | 0, st => st
  | fuel + 1, st =>
    match st.waiting with
    | [] => st
    | t :: rest =>
      if st.connected then
        match st.responses with
        | [] =>
            { st with events := st.events ++ [.granted t.cid, .sent t.cid t.po.url] }
        | r :: rs =>
          match r with
          | .err m =>
              runQueue reg fuel (settleTask st t rest rs (.rejected (.transport m))
                [.granted t.cid, .sent t.cid t.po.url])
          | .okEmpty b =>
              runQueue reg fuel (settleTask st t rest rs (.rejected (.unexpectedResponse b))
                [.granted t.cid, .sent t.cid t.po.url])
          | .ok p =>
            if p.success.isSome then
              if p.msg = some "" then
                runQueue reg fuel (submit reg t.ty t.cid t.po
                  { st with waiting := rest, responses := rs,
                            events := st.events ++
                              [.granted t.cid, .sent t.cid t.po.url, .completed t.cid] })
              else
                runQueue reg fuel (settleTask st t rest rs
                  (.resolved (match t.checkRet with | some f => f p | none => p))
                  [.granted t.cid, .sent t.cid t.po.url])
            else
              runQueue reg fuel (settleTask st t rest rs (.rejected (.serverReject p))
                [.granted t.cid, .sent t.cid t.po.url])
      else
        runQueue reg fuel
          { st with waiting := rest,
                    settled := st.settled ++ [(t.cid, .rejected .notConnected)],
                    events := st.events ++
                      [.granted t.cid, .settled t.cid (.rejected .notConnected),
                       .completed t.cid] }

/-- Initial system state for a given connectivity flag and transport
oracle. -/
def initSt (connected : Bool) (responses : List TResp) : St :=
  { connected := connected, waiting := [], responses := responses,
    settled := [], events := [] }

/-- Submit a batch of commands in order, then drive the queue. -/
def runSystem (reg : Registry) (connected : Bool) (cmds : List (Nat × String × ParamOrgi))
    (responses : List TResp) (fuel : Nat) : St :=
  runQueue reg fuel (submitAll reg cmds (initSt connected responses))

/-- `getInverterSetting` (source lines 825-829) as a submission.  (The
call site passes `this.parseRetDate` as a third argument, which
`comInverter` — declared with two parameters — ignores; the effective
parser is the descriptor's `parseRet`, captured during validation.) -/
def getInverterSetting (reg : Registry) (ty func serialNum : String) (cid : Nat) (st : St) : St :=
  submit reg ty cid (getInverterSettingPO func serialNum) st

/-- `setInverterSetting` (source lines 831-835) as a submission.  (The
ignored third argument of the call site is dropped here too.) -/
def setInverterSetting (reg : Registry) (ty func serialNum : String) (val : AList) (cid : Nat)
    (st : St) : St :=
  submit reg ty cid (setInverterSettingPO func serialNum val) st

/-! ## Trace observations -/

/-- The outcomes delivered to command `c`, in delivery order. -/
def outsFor (c : Nat) : List (Nat × Outcome) → List Outcome :=
  List.filterMap (fun x => if x.1 = c then some x.2 else none)

/-- How many queue entries currently carry command id `c`. -/
def pendingCount (c : Nat) (l : List Task) : Nat :=
  (l.map Task.cid).count c

/-- Is this event a send on behalf of command `c`? -/
def isSentOf (c : Nat) : Event → Bool
  | .sent c' _ => c' = c
  | _ => false

/-- Is this event a settlement of command `c`? -/
def isSettledOf (c : Nat) : Event → Bool
  | .settled c' _ => c' = c
  | _ => false

/-- Is this event a slot release on behalf of command `c`? -/
def isCompletedOf (c : Nat) : Event → Bool
  | .completed c' => c' = c
  | _ => false

/-- `beforeFirst p q tr` holds when some `p`-event occurs strictly before
the first `q`-event of the trace (and a `q`-event follows it). -/
def beforeFirst (p q : Event → Bool) : List Event → Bool
  | [] => false
  | e :: rest => if q e then false else if p e then rest.any q else beforeFirst p q rest

/-- The events a disconnected run appends per rejected entry, in order:
grant, not-connected rejection, slot release. -/
def ncEvents : List Task → List Event
  | [] => []
  | t :: rest =>
      [Event.granted t.cid, Event.settled t.cid (.rejected .notConnected),
       Event.completed t.cid] ++ ncEvents rest

/-- Does the error name the offending action, function or field?  Exactly
the four validation-phase error kinds do. -/
def isNamingError : GError → Bool
  | .unknownAction _ _ => true
  | .unknownFunc _ _ => true
  | .valueIncorrect _ _ _ _ => true
  | .valueMissing _ _ _ => true
  | _ => false

/-- The names of the parameters a descriptor declares. -/
def declaredNames (b : ComDesc) : List String :=
  match b.param with
  | some plist => keysOf plist
  | none => []

/-- Schema well-formedness for one descriptor, as the spec's data model
has it: the declared parameter names are distinct (JS object keys) and
none of them collides with the fixed url-object fields the executor
manages itself. -/
def GoodDesc (b : ComDesc) : Prop :=
  (declaredNames b).Nodup ∧ "action" ∉ declaredNames b ∧ "paramId" ∉ declaredNames b ∧
    "type" ∉ declaredNames b

/-! ## Object-identity model for `getInverterCommunication` (source lines 806-823)

`getInverterCommunication` copies the registry's per-function descriptors
with `Object.assign`, a shallow copy: the per-function wrapper objects and
the `param` map are fresh, but the individual parameter-descriptor objects
are the very objects stored in the registry.  To reason about that the
parameter descriptors are modelled as references into an explicit store,
and the registry/returned structures hold references. -/

/-- A reference to a parameter-descriptor object in the store. -/
abbrev Ref := Nat

/-- The mutable contents of a parameter-descriptor object
(`{name, type}` in the registry data). -/
structure ParamObj where
  pname : String
  ptype : String
deriving DecidableEq, Repr

/-- The object store: reference → current object contents. -/
abbrev Store := List (Ref × ParamObj)

/-- Overwrite a field of an object in the store (a JS mutation through any
alias of the reference). -/
def storeSet (s : Store) (r : Ref) (o : ParamObj) : Store :=
  s.map (fun kv => if kv.1 = r then (r, o) else kv)

/-- A registry-resident function descriptor, with its parameter map
holding references into the store. -/
structure ComDescRefs where
  name : String
  param : List (String × Ref)
  isSubread : Bool := false
  subRead : List String := []
deriving DecidableEq, Repr

/-- The `comInverter` table of one device type, reference-flavoured. -/
abbrev TypeEntryRefs := List (String × ComDescRefs)

/-- One entry of the structure `getInverterCommunication` returns: a fresh
wrapper object whose `param` map is a fresh copy holding the *same*
parameter-descriptor references as the registry. -/
structure RetDesc where
  name : String
  param : List (String × Ref)
  isSubread : Bool := false
  subRead : List String := []
deriving DecidableEq, Repr

/-- The per-function shallow copy `getInverterCommunication` builds: a
fresh wrapper whose `param` map holds the registry descriptor's own
references. -/
def retDescOf (d : ComDescRefs) : RetDesc :=
  { name := d.name, param := d.param, isSubread := d.isSubread, subRead := d.subRead }

/-- `getInverterCommunication` (source lines 806-823): per function key,
build a fresh `{name, param: {}}` wrapper, `Object.assign` the `param`
map (copying name→reference bindings), and copy `isSubread`/`subRead`. -/
def getInverterCommunication (tbl : TypeEntryRefs) : List (String × RetDesc) :=
  tbl.map (fun kv => (kv.1, retDescOf kv.2))

/-- What the registry denotes once references are followed: per function,
per parameter name, the current descriptor object. -/
def readRegistryView (s : Store) (tbl : TypeEntryRefs) :
    List (String × List (String × Option ParamObj)) :=
  tbl.map (fun kv => (kv.1, kv.2.param.map (fun pr => (pr.1, alookup s pr.2))))

/-! ## Demo schema used by concrete witnesses and counterexamples -/

/-- A concrete result parser that visibly transforms the payload. -/
def demoParse : Payload → Payload := fun p => { p with data := "PARSED:" ++ p.data }

/-- A concrete function descriptor declaring a `paramId`, a `type`, one
`STR` parameter and a result parser. -/
def demoDesc : ComDesc :=
  { name := "Time", paramId := some "pf_sys_time_mutli", type := some "pf_sys_time_mutli",
    param := some [("param1", { name := "Time", type := "STR" })],
    parseRet := some demoParse }

/-- A descriptor with a bounded-integer parameter, for validation
witnesses. -/
def demoDescHour : ComDesc :=
  { name := "EndHour", paramId := some "end_hour", type := some "end_hour",
    param := some [("param1", { name := "EndHour", type := "INUM_0_24" })],
    parseRet := none }

/-- The device-type entry of the concrete registry below. -/
def demoEntry : GrowattTypeEntry :=
  { readParam := some "readTlxParam", writeParam := some "tlxSet",
    comInverter := some [("time", demoDesc), ("endHour", demoDescHour)] }

/-- A concrete one-device-type registry. -/
def demoReg : Registry := [("tlx", demoEntry)]

/-- Two read commands submitted in order. -/
def c1Cmds : List (Nat × String × ParamOrgi) :=
  [(0, "tlx", getInverterSettingPO "time" "SN1"),
   (1, "tlx", getInverterSettingPO "time" "SN2")]

/-- Oracle: the first command's first round-trip is acknowledged
"accepted, not yet finished" (`success` defined, `msg` empty), then two
terminal successes. -/
def c1Responses : List TResp :=
  [.ok { success := some true, msg := some "", data := "a1" },
   .ok { success := some true, msg := some "done", data := "b" },
   .ok { success := some true, msg := some "done", data := "a2" }]

/-- The run: command 0 retries once, command 1 is serviced in between. -/
def c1Run : St := runSystem demoReg true c1Cmds c1Responses 10

/-- One command whose send raises a transport error. -/
def c3Run : St :=
  runSystem demoReg true [(0, "tlx", getInverterSettingPO "time" "SN1")] [.err "boom"] 10

/-- A write command on a descriptor that declares a result parser,
acknowledged with terminal success. -/
def c7Run : St :=
  runSystem demoReg true
    [(0, "tlx", setInverterSettingPO "time" "SN1" [("param1", "12:00")])]
    [.ok { success := some true, msg := some "done", data := "raw" }] 10

/-- A one-function registry table in the reference-flavoured model: the
single parameter descriptor lives at store reference 0. -/
def c9Tbl : TypeEntryRefs := [("time", { name := "Time", param := [("param1", 0)] })]

/-- The store backing `c9Tbl` before any mutation. -/
def c9Store : Store := [(0, { pname := "Time", ptype := "INUM_0_24" })]

/-- The store after a caller mutates the parameter-descriptor object it
reached through the structure `getInverterCommunication` returned (the
returned `param` map holds reference 0, the very registry object). -/
def c9Mut : Store := storeSet c9Store 0 { pname := "Time", ptype := "HACKED" }

/-- The encoded request of a read of `time` on `SN1` (what
`comInverterValidate` yields for `getInverterSettingPO "time" "SN1"`). -/
def c1UrlA : AList :=
  [("action", "readTlxParam"), ("paramId", "pf_sys_time_mutli"), ("serialNum", "SN1"),
   ("startAddr", "-1"), ("endAddr", "-1")]

/-- A validated queue entry for that read command. -/
def c1TaskA : Task :=
  { cid := 0, ty := "tlx", po := { getInverterSettingPO "time" "SN1" with url := c1UrlA },
    checkRet := demoDesc.parseRet }

/-- A state in which that entry holds the slot and the next acknowledgment
is "accepted, not yet finished". -/
def c1StA : St :=
  { connected := true, waiting := [c1TaskA],
    responses := [.ok { success := some true, msg := some "", data := "a1" }],
    settled := [], events := [] }

/-- A state in which that entry holds the slot and the transport raises. -/
def c3StA : St :=
  { connected := true, waiting := [c1TaskA], responses := [.err "boom"],
    settled := [], events := [] }

/-- A second validated entry (command id 1). -/
def c5TaskB : Task :=
  { cid := 1, ty := "tlx",
    po := { getInverterSettingPO "time" "SN2" with url :=
      [("action", "readTlxParam"), ("paramId", "pf_sys_time_mutli"), ("serialNum", "SN2"),
       ("startAddr", "-1"), ("endAddr", "-1")] },
    checkRet := demoDesc.parseRet }

/-- Two entries queued back-to-back on a disconnected session. -/
def c5StA : St :=
  { connected := false, waiting := [c1TaskA, c5TaskB], responses := [.err "x"],
    settled := [], events := [] }

/-- A structured payload with no `success` property: the explicit
server-side rejection shape. -/
def c6Payload : Payload := { success := none, msg := some "param error", data := "bad" }

/-- A state in which the slot holder receives that rejection payload. -/
def c6StA : St :=
  { connected := true, waiting := [c1TaskA], responses := [.ok c6Payload],
    settled := [], events := [] }

/-- The encoded request of a write of `time` on `SN1`. -/
def c7Url : AList :=
  [("action", "tlxSet"), ("serialNum", "SN1"), ("type", "pf_sys_time_mutli"),
   ("param1", "12:00")]

/-- The validated queue entry of that write: its captured `checkRet` is
`none` although the descriptor declares a parser, because the write url
object has no `paramId` property. -/
def c7TaskA : Task :=
  { cid := 0, ty := "tlx",
    po := { setInverterSettingPO "time" "SN1" [("param1", "12:00")] with url := c7Url },
    checkRet := none }

/-- A state in which that write entry holds the slot and the next
acknowledgment is terminal success. -/
def c7StA : St :=
  { connected := true, waiting := [c7TaskA],
    responses := [.ok { success := some true, msg := some "done", data := "raw" }],
    settled := [], events := [] }

/-! # Lemmas -/

@[simp] theorem keysOf_nil {α β : Type} : keysOf ([] : List (α × β)) = [] := rfl

@[simp] theorem keysOf_cons {α β : Type} (kv : α × β) (l : List (α × β)) :
    keysOf (kv :: l) = kv.1 :: keysOf l := rfl

@[simp] theorem keysOf_append {α β : Type} (l1 l2 : List (α × β)) :
    keysOf (l1 ++ l2) = keysOf l1 ++ keysOf l2 := by
  simp [keysOf]

@[simp] theorem alookup_nil {α β : Type} [DecidableEq α] (k : α) :
    alookup ([] : List (α × β)) k = none := rfl

theorem alookup_cons {α β : Type} [DecidableEq α] (k' : α) (v : β) (l : List (α × β)) (k : α) :
    alookup ((k', v) :: l) k = if k' = k then some v else alookup l k := rfl

theorem alookup_eq_none {α β : Type} [DecidableEq α] (l : List (α × β)) (k : α) :
    alookup l k = none ↔ k ∉ keysOf l := by
  induction l with
  | nil => simp
  | cons kv rest ih =>
    obtain ⟨k', v⟩ := kv
    simp only [keysOf_cons, List.mem_cons, alookup_cons]
    by_cases h : k' = k
    · subst h
      simp
    · have h2 : ¬ k = k' := fun hh => h hh.symm
      simp [h, h2, ih]

theorem alookup_append_of_none {α β : Type} [DecidableEq α] {l1 : List (α × β)}
    (l2 : List (α × β)) {k : α} (h : alookup l1 k = none) :
    alookup (l1 ++ l2) k = alookup l2 k := by
  induction l1 with
  | nil => rfl
  | cons kv rest ih =>
    obtain ⟨k', v⟩ := kv
    by_cases hk : k' = k
    · simp [alookup_cons, hk] at h
    · simp only [alookup_cons, hk, if_false] at h
      simp only [List.cons_append, alookup_cons, hk, if_false]
      exact ih h

theorem alookup_append_of_some {α β : Type} [DecidableEq α] {l1 : List (α × β)}
    (l2 : List (α × β)) {k : α} {v : β} (h : alookup l1 k = some v) :
    alookup (l1 ++ l2) k = some v := by
  induction l1 with
  | nil => simp [alookup] at h
  | cons kv rest ih =>
    obtain ⟨k', w⟩ := kv
    by_cases hk : k' = k
    · simpa [List.cons_append, alookup_cons, hk] using h
    · simp only [alookup_cons, hk, if_false] at h
      simp only [List.cons_append, alookup_cons, hk, if_false]
      exact ih h

theorem alookup_replace_self {β : Type} (l : List (String × β)) (k : String) (v : β) :
    alookup (l.map (fun kv => if kv.1 = k then (k, v) else kv)) k =
      (alookup l k).map (fun _ => v) := by
  induction l with
  | nil => rfl
  | cons kv rest ih =>
    obtain ⟨k', w⟩ := kv
    by_cases h : k' = k <;> simp [alookup_cons, h, ih]

theorem alookup_replace_ne {β : Type} (l : List (String × β)) (k : String) (v : β)
    {k' : String} (h : k' ≠ k) :
    alookup (l.map (fun kv => if kv.1 = k then (k, v) else kv)) k' = alookup l k' := by
  induction l with
  | nil => rfl
  | cons kv rest ih =>
    obtain ⟨k1, w⟩ := kv
    by_cases h1 : k1 = k
    · subst h1
      have hne : ¬ k1 = k' := fun hh => h hh.symm
      simp [alookup_cons, hne, ih]
    · by_cases h2 : k1 = k' <;> simp [alookup_cons, h1, h2, h, ih]

theorem replace_of_not_mem {β : Type} {l : List (String × β)} {k : String} (v : β)
    (h : k ∉ keysOf l) :
    l.map (fun kv => if kv.1 = k then (k, v) else kv) = l := by
  induction l with
  | nil => rfl
  | cons kv rest ih =>
    simp only [keysOf_cons, List.mem_cons, not_or] at h
    have : ¬ kv.1 = k := fun hh => h.1 hh.symm
    simp [this, ih h.2]

theorem alookup_setKey_self (l : AList) (k v : String) :
    alookup (setKey l k v) k = some v := by
  unfold setKey
  split
  · next h =>
    obtain ⟨w, hw⟩ := Option.isSome_iff_exists.mp h
    rw [alookup_replace_self, hw]
    rfl
  · next h =>
    have hn : alookup l k = none := by
      cases hh : alookup l k with
      | none => rfl
      | some w => rw [hh] at h; simp at h
    rw [alookup_append_of_none _ hn]
    simp [alookup_cons]

theorem alookup_setKey_ne (l : AList) (k v : String) {k' : String} (h : k' ≠ k) :
    alookup (setKey l k v) k' = alookup l k' := by
  unfold setKey
  split
  · exact alookup_replace_ne l k v h
  · cases hh : alookup l k' with
    | none =>
      rw [alookup_append_of_none _ hh]
      have : k ≠ k' := fun hk => h hk.symm
      simp [alookup_cons, this]
    | some w => exact alookup_append_of_some _ hh

theorem keysOf_setKey (l : AList) (k v : String) :
    keysOf (setKey l k v) = if (alookup l k).isSome then keysOf l else keysOf l ++ [k] := by
  unfold setKey
  split
  · next h =>
    simp only [h, if_true, keysOf, List.map_map]
    congr 1
    funext kv
    by_cases hk : kv.1 = k <;> simp [hk]
  · next h =>
    simp only [Bool.not_eq_true] at h
    simp [h, keysOf]

theorem keys_nodup_setKey {l : AList} (k v : String) (h : (keysOf l).Nodup) :
    (keysOf (setKey l k v)).Nodup := by
  rw [keysOf_setKey]
  split
  · exact h
  · next hn =>
    have : alookup l k = none := by
      cases hh : alookup l k with
      | none => rfl
      | some w => rw [hh] at hn; simp at hn
    have hk : k ∉ keysOf l := (alookup_eq_none l k).mp this
    simp [List.nodup_append, h, hk]

theorem setKey_id {l : AList} {k v : String} (hnd : (keysOf l).Nodup)
    (h : alookup l k = some v) : setKey l k v = l := by
  unfold setKey
  rw [h]
  simp only [Option.isSome_some, if_true]
  induction l with
  | nil => simp [alookup] at h
  | cons kv rest ih =>
    obtain ⟨k', w⟩ := kv
    by_cases hk : k' = k
    · subst hk
      simp only [alookup_cons, if_pos rfl] at h
      obtain rfl : w = v := by injection h
      have hrest : k' ∉ keysOf rest := by
        simp only [keysOf_cons] at hnd
        exact (List.nodup_cons.mp hnd).1
      simp [replace_of_not_mem w hrest]
    · simp only [alookup_cons, hk, if_false] at h
      have hnd' : (keysOf rest).Nodup := by
        simp only [keysOf_cons] at hnd
        exact (List.nodup_cons.mp hnd).2
      simp [hk, ih hnd' h]

theorem mem_keys_setKey {l : AList} {k1 v k : String} (h : k ∈ keysOf (setKey l k1 v)) :
    k ∈ keysOf l ∨ k = k1 := by
  rw [keysOf_setKey] at h
  by_cases hp : (alookup l k1).isSome
  · rw [if_pos hp] at h
    exact Or.inl h
  · rw [if_neg hp] at h
    rcases List.mem_append.mp h with h1 | h1
    · exact Or.inl h1
    · simp at h1
      exact Or.inr h1

/-! ### Codec lemmas -/

theorem encodeParams_lookup_frozen {ty f : String} {plist : List (String × ParamDesc)}
    {vals : AList} {u u' : AList} (h : encodeParams ty f plist vals u = .ok u')
    {k : String} (hk : k ∉ keysOf plist) : alookup u' k = alookup u k := by
  induction plist generalizing u with
  | nil =>
    simp only [encodeParams] at h
    injection h with h
    rw [h]
  | cons nd rest ih =>
    obtain ⟨n, d⟩ := nd
    simp only [keysOf_cons, List.mem_cons, not_or] at hk
    simp only [encodeParams] at h
    cases hv : alookup vals n with
    | none =>
      simp only [hv] at h
      exact absurd h (by simp)
    | some v =>
      simp only [hv] at h
      by_cases hok : (PARSEIN d.type v).2
      · rw [if_pos hok] at h
        rw [ih h hk.2]
        exact alookup_setKey_ne u n (PARSEIN d.type v).1 hk.1
      · rw [if_neg hok] at h
        exact absurd h (by simp)

theorem encodeParams_keys {ty f : String} {plist : List (String × ParamDesc)}
    {vals : AList} {u u' : AList} (h : encodeParams ty f plist vals u = .ok u') :
    ∀ k ∈ keysOf u', k ∈ keysOf u ∨ k ∈ keysOf plist := by
  induction plist generalizing u with
  | nil =>
    simp only [encodeParams] at h
    injection h with h
    subst h
    exact fun k hk => Or.inl hk
  | cons nd rest ih =>
    obtain ⟨n, d⟩ := nd
    simp only [encodeParams] at h
    cases hv : alookup vals n with
    | none =>
      simp only [hv] at h
      exact absurd h (by simp)
    | some v =>
      simp only [hv] at h
      by_cases hok : (PARSEIN d.type v).2
      · rw [if_pos hok] at h
        intro k hk
        rcases ih h k hk with h1 | h1
        · rcases mem_keys_setKey h1 with h2 | h2
          · exact Or.inl h2
          · exact Or.inr (by simp [h2])
        · exact Or.inr (by simp [h1])
      · rw [if_neg hok] at h
        exact absurd h (by simp)

theorem encodeParams_nodup {ty f : String} {plist : List (String × ParamDesc)}
    {vals : AList} {u u' : AList} (hnd : (keysOf u).Nodup)
    (h : encodeParams ty f plist vals u = .ok u') : (keysOf u').Nodup := by
  induction plist generalizing u with
  | nil =>
    simp only [encodeParams] at h
    injection h with h
    subst h
    exact hnd
  | cons nd rest ih =>
    obtain ⟨n, d⟩ := nd
    simp only [encodeParams] at h
    cases hv : alookup vals n with
    | none =>
      simp only [hv] at h
      exact absurd h (by simp)
    | some v =>
      simp only [hv] at h
      by_cases hok : (PARSEIN d.type v).2
      · rw [if_pos hok] at h
        exact ih (keys_nodup_setKey _ _ hnd) h
      · rw [if_neg hok] at h
        exact absurd h (by simp)

theorem encodeParams_congr {ty f : String} {plist : List (String × ParamDesc)}
    {vals vals' : AList}
    (hagree : ∀ n ∈ keysOf plist, alookup vals n = alookup vals' n) (u : AList) :
    encodeParams ty f plist vals u = encodeParams ty f plist vals' u := by
  induction plist generalizing u with
  | nil => rfl
  | cons nd rest ih =>
    obtain ⟨n, d⟩ := nd
    have hn : alookup vals n = alookup vals' n := hagree n (by simp)
    have hrest : ∀ m ∈ keysOf rest, alookup vals m = alookup vals' m := by
      intro m hm
      exact hagree m (by simp [hm])
    cases hv : alookup vals n with
    | none =>
      have hn2 : alookup vals' n = none := by rw [← hn, hv]
      simp [encodeParams, hv, hn2]
    | some v =>
      have hn2 : alookup vals' n = some v := by rw [← hn, hv]
      simp only [encodeParams, hv, hn2]
      by_cases hok : (PARSEIN d.type v).2
      · rw [if_pos hok, if_pos hok]
        exact ih hrest _
      · rw [if_neg hok, if_neg hok]

theorem encodeParams_idem {ty f : String} {plist : List (String × ParamDesc)}
    {vals : AList} {u0 u : AList} (hnd : (keysOf u0).Nodup)
    (hpn : (keysOf plist).Nodup)
    (h : encodeParams ty f plist vals u0 = .ok u) :
    encodeParams ty f plist vals u = .ok u := by
  induction plist generalizing u0 with
  | nil =>
    simp only [encodeParams] at h
    injection h with h
    subst h
    rfl
  | cons nd rest ih =>
    obtain ⟨n, d⟩ := nd
    simp only [keysOf_cons, List.nodup_cons] at hpn
    simp only [encodeParams] at h ⊢
    cases hv : alookup vals n with
    | none =>
      simp only [hv] at h
      exact absurd h (by simp)
    | some v =>
      simp only [hv] at h ⊢
      by_cases hok : (PARSEIN d.type v).2
      · rw [if_pos hok] at h ⊢
        have hufix : alookup u n = some (PARSEIN d.type v).1 := by
          rw [encodeParams_lookup_frozen h hpn.1]
          exact alookup_setKey_self u0 n (PARSEIN d.type v).1
        have hundup : (keysOf u).Nodup :=
          encodeParams_nodup (keys_nodup_setKey _ _ hnd) h
        rw [setKey_id hundup hufix]
        exact ih (keys_nodup_setKey _ _ hnd) hpn.2 h
      · rw [if_neg hok] at h
        exact absurd h (by simp)

theorem encodeParams_error_naming {ty f : String} {plist : List (String × ParamDesc)}
    {vals : AList} {u : AList} {e : GError}
    (h : encodeParams ty f plist vals u = .error e) : isNamingError e = true := by
  induction plist generalizing u with
  | nil => simp [encodeParams] at h
  | cons nd rest ih =>
    obtain ⟨n, d⟩ := nd
    simp only [encodeParams] at h
    cases hv : alookup vals n with
    | none =>
      simp only [hv] at h
      injection h with h
      rw [← h]
      rfl
    | some v =>
      simp only [hv] at h
      by_cases hok : (PARSEIN d.type v).2
      · rw [if_pos hok] at h
        exact ih h
      · rw [if_neg hok] at h
        injection h with h
        rw [← h]
        rfl

/-! ### Descriptor-application lemmas -/

theorem descTail_snd {ty f : String} {b : ComDesc} {val : Option AList}
    {pc : AList × Option (Payload → Payload)} {u : AList} {cr : Option (Payload → Payload)}
    (h : descTail ty f b val pc = .ok (u, cr)) : cr = pc.2 := by
  simp only [descTail] at h
  cases hbt : b.type with
  | none =>
    simp only [hbt] at h
    simp only [Except.ok.injEq, Prod.mk.injEq] at h
    exact h.2.symm
  | some t =>
    simp only [hbt] at h
    by_cases hpt : (alookup pc.1 "type").isSome
    · rw [if_pos hpt] at h
      cases hval : val with
      | none =>
        simp only [hval] at h
        simp only [Except.ok.injEq, Prod.mk.injEq] at h
        exact h.2.symm
      | some vals =>
        cases hbp2 : b.param with
        | none =>
          simp only [hval, hbp2] at h
          simp only [Except.ok.injEq, Prod.mk.injEq] at h
          exact h.2.symm
        | some plist =>
          simp only [hval, hbp2] at h
          cases he : encodeParams ty f plist vals (setKey pc.1 "type" t) with
          | ok url4 =>
            simp only [he] at h
            simp only [Except.ok.injEq, Prod.mk.injEq] at h
            exact h.2.symm
          | error e =>
            simp only [he] at h
            exact absurd h (by simp)
    · rw [if_neg hpt] at h
      simp only [Except.ok.injEq, Prod.mk.injEq] at h
      exact h.2.symm

theorem descTail_lookup {ty f : String} {b : ComDesc} {val : Option AList}
    {pc : AList × Option (Payload → Payload)} {u : AList} {cr : Option (Payload → Payload)}
    (h : descTail ty f b val pc = .ok (u, cr)) :
    ∀ k, k ≠ "type" → k ∉ declaredNames b → alookup u k = alookup pc.1 k := by
  intro k hkt hkn
  simp only [descTail] at h
  cases hbt : b.type with
  | none =>
    simp only [hbt] at h
    simp only [Except.ok.injEq, Prod.mk.injEq] at h
    rw [← h.1]
  | some t =>
    simp only [hbt] at h
    by_cases hpt : (alookup pc.1 "type").isSome
    · rw [if_pos hpt] at h
      cases hval : val with
      | none =>
        simp only [hval] at h
        simp only [Except.ok.injEq, Prod.mk.injEq] at h
        rw [← h.1]
        exact alookup_setKey_ne pc.1 "type" t hkt
      | some vals =>
        cases hbp2 : b.param with
        | none =>
          simp only [hval, hbp2] at h
          simp only [Except.ok.injEq, Prod.mk.injEq] at h
          rw [← h.1]
          exact alookup_setKey_ne pc.1 "type" t hkt
        | some plist =>
          simp only [hval, hbp2] at h
          cases he : encodeParams ty f plist vals (setKey pc.1 "type" t) with
          | ok url4 =>
            simp only [he] at h
            simp only [Except.ok.injEq, Prod.mk.injEq] at h
            have hkp : k ∉ keysOf plist := by
              simp only [declaredNames, hbp2] at hkn
              exact hkn
            rw [← h.1, encodeParams_lookup_frozen he hkp]
            exact alookup_setKey_ne pc.1 "type" t hkt
          | error e =>
            simp only [he] at h
            exact absurd h (by simp)
    · rw [if_neg hpt] at h
      simp only [Except.ok.injEq, Prod.mk.injEq] at h
      rw [← h.1]

theorem descTail_keys {ty f : String} {b : ComDesc} {val : Option AList}
    {pc : AList × Option (Payload → Payload)} {u : AList} {cr : Option (Payload → Payload)}
    (h : descTail ty f b val pc = .ok (u, cr)) :
    ∀ k ∈ keysOf u, k ∈ keysOf pc.1 ∨ k ∈ declaredNames b := by
  intro k hk
  simp only [descTail] at h
  cases hbt : b.type with
  | none =>
    simp only [hbt] at h
    simp only [Except.ok.injEq, Prod.mk.injEq] at h
    rw [← h.1] at hk
    exact Or.inl hk
  | some t =>
    simp only [hbt] at h
    by_cases hpt : (alookup pc.1 "type").isSome
    · have hsk : keysOf (setKey pc.1 "type" t) = keysOf pc.1 := by
        rw [keysOf_setKey, if_pos hpt]
      rw [if_pos hpt] at h
      cases hval : val with
      | none =>
        simp only [hval] at h
        simp only [Except.ok.injEq, Prod.mk.injEq] at h
        rw [← h.1, hsk] at hk
        exact Or.inl hk
      | some vals =>
        cases hbp2 : b.param with
        | none =>
          simp only [hval, hbp2] at h
          simp only [Except.ok.injEq, Prod.mk.injEq] at h
          rw [← h.1, hsk] at hk
          exact Or.inl hk
        | some plist =>
          simp only [hval, hbp2] at h
          cases he : encodeParams ty f plist vals (setKey pc.1 "type" t) with
          | ok url4 =>
            simp only [he] at h
            simp only [Except.ok.injEq, Prod.mk.injEq] at h
            rw [← h.1] at hk
            rcases encodeParams_keys he k hk with h1 | h1
            · rw [hsk] at h1
              exact Or.inl h1
            · right
              simp only [declaredNames, hbp2]
              exact h1
          | error e =>
            simp only [he] at h
            exact absurd h (by simp)
    · rw [if_neg hpt] at h
      simp only [Except.ok.injEq, Prod.mk.injEq] at h
      rw [← h.1] at hk
      exact Or.inl hk

theorem descTail_nodup {ty f : String} {b : ComDesc} {val : Option AList}
    {pc : AList × Option (Payload → Payload)} {u : AList} {cr : Option (Payload → Payload)}
    (hnd : (keysOf pc.1).Nodup) (h : descTail ty f b val pc = .ok (u, cr)) :
    (keysOf u).Nodup := by
  simp only [descTail] at h
  cases hbt : b.type with
  | none =>
    simp only [hbt] at h
    simp only [Except.ok.injEq, Prod.mk.injEq] at h
    rw [← h.1]
    exact hnd
  | some t =>
    simp only [hbt] at h
    by_cases hpt : (alookup pc.1 "type").isSome
    · have hnd3 : (keysOf (setKey pc.1 "type" t)).Nodup := keys_nodup_setKey _ _ hnd
      rw [if_pos hpt] at h
      cases hval : val with
      | none =>
        simp only [hval] at h
        simp only [Except.ok.injEq, Prod.mk.injEq] at h
        rw [← h.1]
        exact hnd3
      | some vals =>
        cases hbp2 : b.param with
        | none =>
          simp only [hval, hbp2] at h
          simp only [Except.ok.injEq, Prod.mk.injEq] at h
          rw [← h.1]
          exact hnd3
        | some plist =>
          simp only [hval, hbp2] at h
          cases he : encodeParams ty f plist vals (setKey pc.1 "type" t) with
          | ok url4 =>
            simp only [he] at h
            simp only [Except.ok.injEq, Prod.mk.injEq] at h
            rw [← h.1]
            exact encodeParams_nodup hnd3 he
          | error e =>
            simp only [he] at h
            exact absurd h (by simp)
    · rw [if_neg hpt] at h
      simp only [Except.ok.injEq, Prod.mk.injEq] at h
      rw [← h.1]
      exact hnd

theorem descTail_error {ty f : String} {b : ComDesc} {val : Option AList}
    {pc : AList × Option (Payload → Payload)} {e : GError}
    (h : descTail ty f b val pc = .error e) : isNamingError e = true := by
  simp only [descTail] at h
  cases hbt : b.type with
  | none =>
    simp only [hbt] at h
    exact absurd h (by simp)
  | some t =>
    simp only [hbt] at h
    by_cases hpt : (alookup pc.1 "type").isSome
    · rw [if_pos hpt] at h
      cases hval : val with
      | none =>
        simp only [hval] at h
        exact absurd h (by simp)
      | some vals =>
        cases hbp2 : b.param with
        | none =>
          simp only [hval, hbp2] at h
          exact absurd h (by simp)
        | some plist =>
          simp only [hval, hbp2] at h
          cases he : encodeParams ty f plist vals (setKey pc.1 "type" t) with
          | ok url4 =>
            simp only [he] at h
            exact absurd h (by simp)
          | error e2 =>
            simp only [he] at h
            injection h with h
            rw [← h]
            exact encodeParams_error_naming he
    · rw [if_neg hpt] at h
      exact absurd h (by simp)

theorem descTail_congr {ty f : String} {b : ComDesc} {vals vals' : AList}
    (pc : AList × Option (Payload → Payload))
    (hagree : ∀ n ∈ declaredNames b, alookup vals n = alookup vals' n) :
    descTail ty f b (some vals) pc = descTail ty f b (some vals') pc := by
  cases hbt : b.type with
  | none => simp [descTail, hbt]
  | some t =>
    simp only [descTail, hbt]
    by_cases hpt : (alookup pc.1 "type").isSome
    · rw [if_pos hpt, if_pos hpt]
      cases hbp2 : b.param with
      | none => simp
      | some plist =>
        have hag : ∀ n ∈ keysOf plist, alookup vals n = alookup vals' n := by
          intro n hn
          apply hagree
          simp only [declaredNames, hbp2]
          exact hn
        simp only [encodeParams_congr hag (setKey pc.1 "type" t)]
    · rw [if_neg hpt, if_neg hpt]

theorem descTail_idem {ty f : String} {b : ComDesc} {val : Option AList}
    {pc : AList × Option (Payload → Payload)} {u : AList} {cr : Option (Payload → Payload)}
    (hnd : (keysOf pc.1).Nodup) (hpn : (declaredNames b).Nodup)
    (htn : "type" ∉ declaredNames b)
    (h : descTail ty f b val pc = .ok (u, cr)) :
    descTail ty f b val (u, cr) = .ok (u, cr) := by
  have hcr : cr = pc.2 := descTail_snd h
  simp only [descTail] at h
  cases hbt : b.type with
  | none =>
    simp only [hbt] at h
    simp only [Except.ok.injEq, Prod.mk.injEq] at h
    simp [descTail, hbt]
  | some t =>
    simp only [hbt] at h
    by_cases hpt : (alookup pc.1 "type").isSome
    · have hnd3 : (keysOf (setKey pc.1 "type" t)).Nodup := keys_nodup_setKey _ _ hnd
      rw [if_pos hpt] at h
      cases hval : val with
      | none =>
        simp only [hval] at h
        simp only [Except.ok.injEq, Prod.mk.injEq] at h
        obtain ⟨hu, hcr2⟩ := h
        have hut : alookup u "type" = some t := by
          rw [← hu]
          exact alookup_setKey_self pc.1 "type" t
        have hund : (keysOf u).Nodup := by
          rw [← hu]
          exact hnd3
        simp only [descTail, hbt, hval]
        rw [if_pos (by simp [hut])]
        rw [setKey_id hund hut]
      | some vals =>
        cases hbp2 : b.param with
        | none =>
          simp only [hval, hbp2] at h
          simp only [Except.ok.injEq, Prod.mk.injEq] at h
          obtain ⟨hu, hcr2⟩ := h
          have hut : alookup u "type" = some t := by
            rw [← hu]
            exact alookup_setKey_self pc.1 "type" t
          have hund : (keysOf u).Nodup := by
            rw [← hu]
            exact hnd3
          simp only [descTail, hbt, hval, hbp2]
          rw [if_pos (by simp [hut])]
          rw [setKey_id hund hut]
        | some plist =>
          simp only [hval, hbp2] at h
          cases he : encodeParams ty f plist vals (setKey pc.1 "type" t) with
          | ok url4 =>
            simp only [he] at h
            simp only [Except.ok.injEq, Prod.mk.injEq] at h
            obtain ⟨hu, hcr2⟩ := h
            have hplnd : (keysOf plist).Nodup := by
              simpa [declaredNames, hbp2] using hpn
            have htp : "type" ∉ keysOf plist := by
              simpa [declaredNames, hbp2] using htn
            have hut : alookup u "type" = some t := by
              rw [← hu, encodeParams_lookup_frozen he htp]
              exact alookup_setKey_self pc.1 "type" t
            have hund : (keysOf u).Nodup := by
              rw [← hu]
              exact encodeParams_nodup hnd3 he
            have he2 : encodeParams ty f plist vals u = .ok u := by
              rw [← hu]
              exact encodeParams_idem hnd3 hplnd he
            simp only [descTail, hbt, hval, hbp2]
            rw [if_pos (by simp [hut])]
            rw [setKey_id hund hut]
            simp only [he2]
          | error e =>
            simp only [he] at h
            exact absurd h (by simp)
    · rw [if_neg hpt] at h
      simp only [Except.ok.injEq, Prod.mk.injEq] at h
      obtain ⟨hu, hcr2⟩ := h
      have hut : (alookup u "type").isSome = false := by
        rw [← hu]
        simp only [Bool.not_eq_true] at hpt
        simpa using hpt
      simp only [descTail, hbt]
      rw [if_neg (by rw [hut]; exact fun hh => nomatch hh)]

theorem alookup_append_not_mem {α β : Type} [DecidableEq α] (l1 : List (α × β))
    {l2 : List (α × β)} {k : α} (h : k ∉ keysOf l2) :
    alookup (l1 ++ l2) k = alookup l1 k := by
  cases hh : alookup l1 k with
  | some v => exact alookup_append_of_some _ hh
  | none =>
    rw [alookup_append_of_none _ hh]
    exact (alookup_eq_none l2 k).mpr h

theorem descApply_error {ty f : String} {b : ComDesc} {val : Option AList} {url1 : AList}
    {e : GError} (h : descApply ty f b val url1 = .error e) : isNamingError e = true := by
  simp only [descApply] at h
  exact descTail_error h

theorem descApply_checkRet {ty f : String} {b : ComDesc} {val : Option AList} {url1 : AList}
    {u : AList} {cr : Option (Payload → Payload)}
    (hpid : alookup url1 "paramId" = none)
    (h : descApply ty f b val url1 = .ok (u, cr)) : cr = none := by
  simp only [descApply] at h
  cases hbp : b.paramId with
  | none =>
    simp only [hbp] at h
    simpa using descTail_snd h
  | some pid =>
    simp only [hbp, hpid, Option.isSome_none, Bool.false_eq_true, if_false] at h
    simpa using descTail_snd h

theorem descApply_lookup {ty f : String} {b : ComDesc} {val : Option AList} {url1 : AList}
    {u : AList} {cr : Option (Payload → Payload)}
    (h : descApply ty f b val url1 = .ok (u, cr)) :
    ∀ k, k ≠ "paramId" → k ≠ "type" → k ∉ declaredNames b →
      alookup u k = alookup url1 k := by
  intro k hkp hkt hkn
  simp only [descApply] at h
  cases hbp : b.paramId with
  | none =>
    simp only [hbp] at h
    exact descTail_lookup h k hkt hkn
  | some pid =>
    simp only [hbp] at h
    by_cases hp : (alookup url1 "paramId").isSome
    · rw [if_pos hp] at h
      rw [descTail_lookup h k hkt hkn]
      exact alookup_setKey_ne url1 "paramId" pid hkp
    · rw [if_neg hp] at h
      exact descTail_lookup h k hkt hkn

theorem descApply_keys {ty f : String} {b : ComDesc} {val : Option AList} {url1 : AList}
    {u : AList} {cr : Option (Payload → Payload)}
    (h : descApply ty f b val url1 = .ok (u, cr)) :
    ∀ k ∈ keysOf u, k ∈ keysOf url1 ∨ k ∈ declaredNames b := by
  intro k hk
  simp only [descApply] at h
  cases hbp : b.paramId with
  | none =>
    simp only [hbp] at h
    exact descTail_keys h k hk
  | some pid =>
    simp only [hbp] at h
    by_cases hp : (alookup url1 "paramId").isSome
    · rw [if_pos hp] at h
      rcases descTail_keys h k hk with h1 | h1
      · left
        have : keysOf (setKey url1 "paramId" pid) = keysOf url1 := by
          rw [keysOf_setKey, if_pos hp]
        rw [← this]
        exact h1
      · exact Or.inr h1
    · rw [if_neg hp] at h
      exact descTail_keys h k hk

theorem descApply_nodup {ty f : String} {b : ComDesc} {val : Option AList} {url1 : AList}
    {u : AList} {cr : Option (Payload → Payload)} (hnd : (keysOf url1).Nodup)
    (h : descApply ty f b val url1 = .ok (u, cr)) : (keysOf u).Nodup := by
  simp only [descApply] at h
  cases hbp : b.paramId with
  | none =>
    simp only [hbp] at h
    exact descTail_nodup hnd h
  | some pid =>
    simp only [hbp] at h
    by_cases hp : (alookup url1 "paramId").isSome
    · rw [if_pos hp] at h
      exact descTail_nodup (keys_nodup_setKey _ _ hnd) h
    · rw [if_neg hp] at h
      exact descTail_nodup hnd h

theorem descApply_congr {ty f : String} {b : ComDesc} {vals vals' : AList} (url1 : AList)
    (hagree : ∀ n ∈ declaredNames b, alookup vals n = alookup vals' n) :
    descApply ty f b (some vals) url1 = descApply ty f b (some vals') url1 := by
  simp only [descApply]
  exact descTail_congr _ hagree

theorem descApply_idem {ty f : String} {b : ComDesc} {val : Option AList} {url1 : AList}
    {u : AList} {cr : Option (Payload → Payload)}
    (hnd : (keysOf url1).Nodup) (hgood : GoodDesc b)
    (h : descApply ty f b val url1 = .ok (u, cr)) :
    descApply ty f b val u = .ok (u, cr) := by
  obtain ⟨hpn, _, hpidn, htn⟩ := hgood
  simp only [descApply] at h ⊢
  cases hbp : b.paramId with
  | none =>
    simp only [hbp] at h ⊢
    have hcr : cr = none := by simpa using descTail_snd h
    subst hcr
    exact descTail_idem hnd hpn htn h
  | some pid =>
    simp only [hbp] at h ⊢
    by_cases hp : (alookup url1 "paramId").isSome
    · rw [if_pos hp] at h
      obtain ⟨pv, hpv⟩ := Option.isSome_iff_exists.mp hp
      have hlk : alookup u "paramId" = some pid := by
        rw [descTail_lookup h "paramId" (by decide) hpidn]
        exact alookup_setKey_self url1 "paramId" pid
      have hund : (keysOf u).Nodup := descTail_nodup (keys_nodup_setKey _ _ hnd) h
      have hcr : cr = b.parseRet := by simpa using descTail_snd h
      rw [if_pos (by simp [hlk])]
      rw [setKey_id hund hlk]
      have := descTail_idem (keys_nodup_setKey (l := url1) "paramId" pid hnd) hpn htn h
      rw [hcr] at this ⊢
      exact this
    · rw [if_neg hp] at h
      have hlk : alookup u "paramId" = none := by
        rw [descTail_lookup h "paramId" (by decide) hpidn]
        cases hh : alookup url1 "paramId" with
        | none => rfl
        | some w => rw [hh] at hp; simp at hp
      have hcr : cr = none := by simpa using descTail_snd h
      rw [if_neg (by simp [hlk])]
      subst hcr
      exact descTail_idem hnd hpn htn h

/-! ### Validation-phase lemmas -/

theorem validate_error_naming {gt : Option GrowattTypeEntry} {ty : String} {po : ParamOrgi}
    {e : GError} (h : comInverterValidate gt ty po = .error e) : isNamingError e = true := by
  cases gt with
  | none =>
    simp only [comInverterValidate] at h
    injection h with h
    rw [← h]
    rfl
  | some g =>
    simp only [comInverterValidate] at h
    cases ha : gtActionField g po.action with
    | none =>
      simp only [ha] at h
      injection h with h
      rw [← h]
      rfl
    | some a =>
      simp only [ha] at h
      cases hb : (gtBaseField g po.base).bind (fun m => alookup m po.func) with
      | none =>
        simp only [hb] at h
        injection h with h
        rw [← h]
        rfl
      | some b =>
        simp only [hb] at h
        exact descApply_error h

theorem validate_checkRet {gt : Option GrowattTypeEntry} {ty : String} {po : ParamOrgi}
    {u : AList} {cr : Option (Payload → Payload)}
    (hpid : alookup po.url "paramId" = none)
    (h : comInverterValidate gt ty po = .ok (u, cr)) : cr = none := by
  cases gt with
  | none =>
    simp only [comInverterValidate] at h
    exact absurd h (by simp)
  | some g =>
    simp only [comInverterValidate] at h
    cases ha : gtActionField g po.action with
    | none =>
      simp only [ha] at h
      exact absurd h (by simp)
    | some a =>
      simp only [ha] at h
      cases hb : (gtBaseField g po.base).bind (fun m => alookup m po.func) with
      | none =>
        simp only [hb] at h
        exact absurd h (by simp)
      | some b =>
        simp only [hb] at h
        have hpid1 : alookup (setKey po.url "action" a) "paramId" = none := by
          rw [alookup_setKey_ne po.url "action" a (by decide)]
          exact hpid
        exact descApply_checkRet hpid1 h

theorem validate_keys {g : GrowattTypeEntry} {ty : String} {po : ParamOrgi} {b : ComDesc}
    {u : AList} {cr : Option (Payload → Payload)}
    (hb : (gtBaseField g po.base).bind (fun m => alookup m po.func) = some b)
    (h : comInverterValidate (some g) ty po = .ok (u, cr)) :
    ∀ k ∈ keysOf u, k ∈ keysOf po.url ∨ k = "action" ∨ k ∈ declaredNames b := by
  simp only [comInverterValidate] at h
  cases ha : gtActionField g po.action with
  | none =>
    simp only [ha] at h
    exact absurd h (by simp)
  | some a =>
    simp only [ha, hb] at h
    intro k hk
    rcases descApply_keys h k hk with h1 | h1
    · rcases mem_keys_setKey h1 with h2 | h2
      · exact Or.inl h2
      · exact Or.inr (Or.inl h2)
    · exact Or.inr (Or.inr h1)

theorem validate_congr {g : GrowattTypeEntry} {ty : String} {po : ParamOrgi} {b : ComDesc}
    {vals vals' : AList}
    (hb : (gtBaseField g po.base).bind (fun m => alookup m po.func) = some b)
    (hval : po.val = some vals)
    (hagree : ∀ n ∈ declaredNames b, alookup vals n = alookup vals' n) :
    comInverterValidate (some g) ty { po with val := some vals' } =
      comInverterValidate (some g) ty po := by
  simp only [comInverterValidate]
  cases ha : gtActionField g po.action with
  | none => simp [ha]
  | some a =>
    simp only [ha, hb]
    rw [hval]
    exact descApply_congr _ (fun n hn => (hagree n hn).symm)

theorem validate_idem {g : GrowattTypeEntry} {ty : String} {po : ParamOrgi}
    {u : AList} {cr : Option (Payload → Payload)}
    (hnd : (keysOf po.url).Nodup)
    (hgood : ∀ m b, g.comInverter = some m → alookup m po.func = some b → GoodDesc b)
    (h : comInverterValidate (some g) ty po = .ok (u, cr)) :
    comInverterValidate (some g) ty { po with url := u } = .ok (u, cr) := by
  simp only [comInverterValidate] at h ⊢
  cases ha : gtActionField g po.action with
  | none =>
    simp only [ha] at h
    exact absurd h (by simp)
  | some a =>
    simp only [ha] at h ⊢
    cases hb : (gtBaseField g po.base).bind (fun m => alookup m po.func) with
    | none =>
      simp only [hb] at h
      exact absurd h (by simp)
    | some b =>
      simp only [hb] at h ⊢
      obtain ⟨m, hm, hmb⟩ : ∃ m, gtBaseField g po.base = some m ∧ alookup m po.func = some b := by
        cases hgb : gtBaseField g po.base with
        | none => rw [hgb] at hb; simp at hb
        | some m =>
          rw [hgb] at hb
          simp at hb
          exact ⟨m, rfl, hb⟩
      have hgb2 : g.comInverter = some m := by
        unfold gtBaseField at hm
        by_cases hbase : po.base = "comInverter"
        · rw [if_pos hbase] at hm
          exact hm
        · rw [if_neg hbase] at hm
          exact absurd hm (by simp)
      obtain ⟨hpn, han, hpidn, htn⟩ := hgood m b hgb2 hmb
      have hact : alookup u "action" = some a := by
        rw [descApply_lookup h "action" (by decide) (by decide) han]
        exact alookup_setKey_self po.url "action" a
      have hund : (keysOf u).Nodup := descApply_nodup (keys_nodup_setKey _ _ hnd) h
      rw [setKey_id hund hact]
      exact descApply_idem (keys_nodup_setKey _ _ hnd) ⟨hpn, han, hpidn, htn⟩ h

/-! ### Queue step equations -/

theorem runQueue_nil {reg : Registry} {fuel : Nat} {st : St} (hw : st.waiting = []) :
    runQueue reg fuel st = st := by
  cases fuel with
  | zero => rfl
  | succ n => simp only [runQueue, hw]

theorem runQueue_notConnected {reg : Registry} {fuel : Nat} {st : St} {t : Task}
    {rest : List Task} (hw : st.waiting = t :: rest) (hc : st.connected = false) :
    runQueue reg (fuel + 1) st =
      runQueue reg fuel
        { st with waiting := rest,
                  settled := st.settled ++ [(t.cid, .rejected .notConnected)],
                  events := st.events ++
                    [.granted t.cid, .settled t.cid (.rejected .notConnected),
                     .completed t.cid] } := by
  simp only [runQueue, hw, hc]
  rfl

theorem runQueue_stall {reg : Registry} {fuel : Nat} {st : St} {t : Task} {rest : List Task}
    (hw : st.waiting = t :: rest) (hc : st.connected = true) (hr : st.responses = []) :
    runQueue reg (fuel + 1) st =
      { st with events := st.events ++ [.granted t.cid, .sent t.cid t.po.url] } := by
  simp only [runQueue, hw, hc, hr]
  rfl

theorem runQueue_err {reg : Registry} {fuel : Nat} {st : St} {t : Task} {rest : List Task}
    {m : String} {rs : List TResp} (hw : st.waiting = t :: rest) (hc : st.connected = true)
    (hr : st.responses = .err m :: rs) :
    runQueue reg (fuel + 1) st =
      runQueue reg fuel (settleTask st t rest rs (.rejected (.transport m))
        [.granted t.cid, .sent t.cid t.po.url]) := by
  simp only [runQueue, hw, hc, hr]
  rfl

theorem runQueue_okEmpty {reg : Registry} {fuel : Nat} {st : St} {t : Task} {rest : List Task}
    {b : Bool} {rs : List TResp} (hw : st.waiting = t :: rest) (hc : st.connected = true)
    (hr : st.responses = .okEmpty b :: rs) :
    runQueue reg (fuel + 1) st =
      runQueue reg fuel (settleTask st t rest rs (.rejected (.unexpectedResponse b))
        [.granted t.cid, .sent t.cid t.po.url]) := by
  simp only [runQueue, hw, hc, hr]
  rfl

theorem runQueue_serverReject {reg : Registry} {fuel : Nat} {st : St} {t : Task}
    {rest : List Task} {p : Payload} {rs : List TResp} (hw : st.waiting = t :: rest)
    (hc : st.connected = true) (hr : st.responses = .ok p :: rs) (hs : p.success = none) :
    runQueue reg (fuel + 1) st =
      runQueue reg fuel (settleTask st t rest rs (.rejected (.serverReject p))
        [.granted t.cid, .sent t.cid t.po.url]) := by
  simp only [runQueue, hw, hc, hr, hs]
  rfl

theorem runQueue_retry {reg : Registry} {fuel : Nat} {st : St} {t : Task} {rest : List Task}
    {p : Payload} {rs : List TResp} (hw : st.waiting = t :: rest) (hc : st.connected = true)
    (hr : st.responses = .ok p :: rs) (hs : p.success.isSome = true) (hm : p.msg = some "") :
    runQueue reg (fuel + 1) st =
      runQueue reg fuel (submit reg t.ty t.cid t.po
        { st with waiting := rest, responses := rs,
                  events := st.events ++
                    [.granted t.cid, .sent t.cid t.po.url, .completed t.cid] }) := by
  simp only [runQueue, hw, hc, hr, hs, hm]
  rfl

theorem runQueue_terminal {reg : Registry} {fuel : Nat} {st : St} {t : Task} {rest : List Task}
    {p : Payload} {rs : List TResp} (hw : st.waiting = t :: rest) (hc : st.connected = true)
    (hr : st.responses = .ok p :: rs) (hs : p.success.isSome = true) (hm : ¬ p.msg = some "") :
    runQueue reg (fuel + 1) st =
      runQueue reg fuel (settleTask st t rest rs
        (.resolved (match t.checkRet with | some f => f p | none => p))
        [.granted t.cid, .sent t.cid t.po.url]) := by
  simp only [runQueue, hw, hc, hr, hs, hm]
  rfl

/-! ### Queue invariants -/

@[simp] theorem outsFor_nil (c : Nat) : outsFor c [] = [] := rfl

@[simp] theorem outsFor_append (c : Nat) (l1 l2 : List (Nat × Outcome)) :
    outsFor c (l1 ++ l2) = outsFor c l1 ++ outsFor c l2 := by
  simp [outsFor]

@[simp] theorem outsFor_single (c d : Nat) (o : Outcome) :
    outsFor c [(d, o)] = if d = c then [o] else [] := by
  by_cases h : d = c <;> simp [outsFor, h]

@[simp] theorem pendingCount_nil (c : Nat) : pendingCount c [] = 0 := rfl

theorem pendingCount_cons (c : Nat) (t : Task) (l : List Task) :
    pendingCount c (t :: l) = pendingCount c l + (if t.cid = c then 1 else 0) := by
  simp [pendingCount, List.count_cons]

theorem pendingCount_append (c : Nat) (l1 l2 : List Task) :
    pendingCount c (l1 ++ l2) = pendingCount c l1 + pendingCount c l2 := by
  simp [pendingCount, List.count_append]

/-- The count that the protocol preserves: outcomes already delivered to
`c` plus queue entries still carrying `c`. -/
def liveCount (c : Nat) (st : St) : Nat :=
  (outsFor c st.settled).length + pendingCount c st.waiting

theorem submit_liveCount (reg : Registry) (ty : String) (cid : Nat) (po : ParamOrgi) (st : St)
    (c : Nat) :
    liveCount c (submit reg ty cid po st) = liveCount c st + (if cid = c then 1 else 0) := by
  unfold submit
  cases comInverterValidate (alookup reg ty) ty po with
  | error e =>
    by_cases h : cid = c <;> simp [liveCount, h] <;> omega
  | ok res =>
    by_cases h : cid = c <;>
      simp [liveCount, pendingCount_append, pendingCount_cons, h] <;> omega

theorem submit_connected (reg : Registry) (ty : String) (cid : Nat) (po : ParamOrgi)
    (st : St) : (submit reg ty cid po st).connected = st.connected := by
  unfold submit
  cases comInverterValidate (alookup reg ty) ty po with
  | error e => rfl
  | ok res => rfl

theorem submit_settled_prefix (reg : Registry) (ty : String) (cid : Nat) (po : ParamOrgi)
    (st : St) : ∃ l, (submit reg ty cid po st).settled = st.settled ++ l := by
  unfold submit
  cases comInverterValidate (alookup reg ty) ty po with
  | error e => exact ⟨[(cid, .rejected e)], rfl⟩
  | ok res => exact ⟨[], by simp⟩

theorem submit_responses (reg : Registry) (ty : String) (cid : Nat) (po : ParamOrgi)
    (st : St) : (submit reg ty cid po st).responses = st.responses := by
  unfold submit
  cases comInverterValidate (alookup reg ty) ty po with
  | error e => rfl
  | ok res => rfl

theorem settleTask_settled (st : St) (t : Task) (rest : List Task) (rs : List TResp)
    (o : Outcome) (pre : List Event) :
    (settleTask st t rest rs o pre).settled = st.settled ++ [(t.cid, o)] := rfl

theorem appendPrefix_trans {α : Type} {a b c : List α} (h1 : ∃ l1, b = a ++ l1)
    (h2 : ∃ l2, c = b ++ l2) : ∃ l3, c = a ++ l3 := by
  obtain ⟨l1, rfl⟩ := h1
  obtain ⟨l2, rfl⟩ := h2
  exact ⟨l1 ++ l2, by simp⟩

theorem runQueue_liveCount (reg : Registry) (c : Nat) :
    ∀ fuel st, liveCount c (runQueue reg fuel st) = liveCount c st := by
  intro fuel
  induction fuel with
  | zero => intro st; rfl
  | succ n ih =>
    intro st
    cases hw : st.waiting with
    | nil => rw [runQueue_nil hw]
    | cons t rest =>
      cases hc : st.connected with
      | false =>
        rw [runQueue_notConnected hw hc, ih]
        by_cases ht : t.cid = c <;>
          simp [liveCount, hw, pendingCount_cons, ht] <;> omega
      | true =>
        cases hr : st.responses with
        | nil =>
          rw [runQueue_stall hw hc hr]
          simp [liveCount, hw]
        | cons r rs =>
          cases r with
          | err m =>
            rw [runQueue_err hw hc hr, ih]
            by_cases ht : t.cid = c <;>
              simp [liveCount, settleTask, hw, pendingCount_cons, ht] <;> omega
          | okEmpty b =>
            rw [runQueue_okEmpty hw hc hr, ih]
            by_cases ht : t.cid = c <;>
              simp [liveCount, settleTask, hw, pendingCount_cons, ht] <;> omega
          | ok p =>
            cases hs : p.success with
            | none =>
              rw [runQueue_serverReject hw hc hr hs, ih]
              by_cases ht : t.cid = c <;>
                simp [liveCount, settleTask, hw, pendingCount_cons, ht] <;> omega
            | some sb =>
              have hss : p.success.isSome = true := by rw [hs]; rfl
              by_cases hm : p.msg = some ""
              · rw [runQueue_retry hw hc hr hss hm]
                rw [ih]
                rw [submit_liveCount]
                by_cases ht : t.cid = c <;>
                  simp [liveCount, hw, pendingCount_cons, ht] <;> omega
              · rw [runQueue_terminal hw hc hr hss hm, ih]
                by_cases ht : t.cid = c <;>
                  simp [liveCount, settleTask, hw, pendingCount_cons, ht] <;> omega

theorem runQueue_connected (reg : Registry) :
    ∀ fuel st, (runQueue reg fuel st).connected = st.connected := by
  intro fuel
  induction fuel with
  | zero => intro st; rfl
  | succ n ih =>
    intro st
    cases hw : st.waiting with
    | nil => rw [runQueue_nil hw]
    | cons t rest =>
      cases hc : st.connected with
      | false =>
        rw [runQueue_notConnected hw hc, ih]
        exact hc
      | true =>
        cases hr : st.responses with
        | nil =>
          rw [runQueue_stall hw hc hr]
          exact hc
        | cons r rs =>
          cases r with
          | err m => rw [runQueue_err hw hc hr, ih]; exact hc
          | okEmpty b => rw [runQueue_okEmpty hw hc hr, ih]; exact hc
          | ok p =>
            cases hs : p.success with
            | none => rw [runQueue_serverReject hw hc hr hs, ih]; exact hc
            | some sb =>
              have hss : p.success.isSome = true := by rw [hs]; rfl
              by_cases hm : p.msg = some ""
              · rw [runQueue_retry hw hc hr hss hm]
                rw [ih]
                rw [submit_connected]
                exact hc
              · rw [runQueue_terminal hw hc hr hss hm, ih]; exact hc

theorem runQueue_settled_prefix (reg : Registry) :
    ∀ fuel st, ∃ l, (runQueue reg fuel st).settled = st.settled ++ l := by
  intro fuel
  induction fuel with
  | zero => intro st; exact ⟨[], by simp [runQueue]⟩
  | succ n ih =>
    intro st
    cases hw : st.waiting with
    | nil =>
      rw [runQueue_nil hw]
      exact ⟨[], by simp⟩
    | cons t rest =>
      cases hc : st.connected with
      | false =>
        rw [runQueue_notConnected hw hc]
        exact appendPrefix_trans ⟨[(t.cid, .rejected .notConnected)], rfl⟩ (ih _)
      | true =>
        cases hr : st.responses with
        | nil =>
          rw [runQueue_stall hw hc hr]
          exact ⟨[], by simp⟩
        | cons r rs =>
          cases r with
          | err m =>
            rw [runQueue_err hw hc hr]
            exact appendPrefix_trans ⟨[(t.cid, .rejected (.transport m))], rfl⟩ (ih _)
          | okEmpty b =>
            rw [runQueue_okEmpty hw hc hr]
            exact appendPrefix_trans ⟨[(t.cid, .rejected (.unexpectedResponse b))], rfl⟩ (ih _)
          | ok p =>
            cases hs : p.success with
            | none =>
              rw [runQueue_serverReject hw hc hr hs]
              exact appendPrefix_trans ⟨[(t.cid, .rejected (.serverReject p))], rfl⟩ (ih _)
            | some sb =>
              have hss : p.success.isSome = true := by rw [hs]; rfl
              by_cases hm : p.msg = some ""
              · rw [runQueue_retry hw hc hr hss hm]
                obtain ⟨l2, hl2⟩ := submit_settled_prefix reg t.ty t.cid t.po
                  { st with waiting := rest, responses := rs,
                            events := st.events ++
                              [.granted t.cid, .sent t.cid t.po.url, .completed t.cid] }
                exact appendPrefix_trans ⟨l2, hl2⟩ (ih _)
              · rw [runQueue_terminal hw hc hr hss hm]
                exact appendPrefix_trans
                  ⟨[(t.cid, .resolved (match t.checkRet with | some f => f p | none => p))], rfl⟩
                  (ih _)

/-! ### Submission lemmas -/

theorem submit_error {reg : Registry} {ty : String} {cid : Nat} {po : ParamOrgi} {st : St}
    {e : GError} (h : comInverterValidate (alookup reg ty) ty po = .error e) :
    submit reg ty cid po st =
      { st with settled := st.settled ++ [(cid, .rejected e)],
                events := st.events ++ [.settled cid (.rejected e)] } := by
  simp only [submit, h]

theorem submit_ok {reg : Registry} {ty : String} {cid : Nat} {po : ParamOrgi} {st : St}
    {u : AList} {cr : Option (Payload → Payload)}
    (h : comInverterValidate (alookup reg ty) ty po = .ok (u, cr)) :
    submit reg ty cid po st =
      { st with waiting := st.waiting ++
          [{ cid := cid, ty := ty, po := { po with url := u }, checkRet := cr }] } := by
  simp only [submit, h]

theorem submitAll_cons (reg : Registry) (cmd : Nat × String × ParamOrgi)
    (cmds : List (Nat × String × ParamOrgi)) (st : St) :
    submitAll reg (cmd :: cmds) st =
      submitAll reg cmds (submit reg cmd.2.1 cmd.1 cmd.2.2 st) := rfl

theorem submitAll_liveCount (reg : Registry) (cmds : List (Nat × String × ParamOrgi)) :
    ∀ st c, liveCount c (submitAll reg cmds st) =
      liveCount c st + (cmds.map Prod.fst).count c := by
  induction cmds with
  | nil => intro st c; simp [submitAll]
  | cons cmd rest ih =>
    intro st c
    rw [submitAll_cons, ih, submit_liveCount]
    by_cases h : cmd.1 = c <;> simp [List.count_cons, h] <;> omega

theorem submitAll_connected (reg : Registry) (cmds : List (Nat × String × ParamOrgi)) :
    ∀ st, (submitAll reg cmds st).connected = st.connected := by
  induction cmds with
  | nil => intro st; rfl
  | cons cmd rest ih =>
    intro st
    rw [submitAll_cons, ih, submit_connected]

theorem runQueue_disconnected (reg : Registry) :
    ∀ fuel st, st.connected = false → st.waiting.length ≤ fuel →
    runQueue reg fuel st =
      { st with waiting := [],
                settled := st.settled ++
                  st.waiting.map (fun t => (t.cid, Outcome.rejected .notConnected)),
                events := st.events ++ ncEvents st.waiting } := by
  intro fuel
  induction fuel with
  | zero =>
    intro st hc hlen
    cases hw : st.waiting with
    | nil =>
      rw [runQueue_nil hw]
      obtain ⟨c0, w0, r0, s0, e0⟩ := st
      simp only at hw
      subst hw
      simp [ncEvents]
    | cons t rest =>
      rw [hw] at hlen
      simp at hlen
  | succ n ih =>
    intro st hc hlen
    cases hw : st.waiting with
    | nil =>
      rw [runQueue_nil hw]
      obtain ⟨c0, w0, r0, s0, e0⟩ := st
      simp only at hw
      subst hw
      simp [ncEvents]
    | cons t rest =>
      rw [runQueue_notConnected hw hc]
      have hlen2 : rest.length ≤ n := by
        rw [hw] at hlen
        simp only [List.length_cons] at hlen
        omega
      rw [ih { st with waiting := rest,
                       settled := st.settled ++ [(t.cid, Outcome.rejected .notConnected)],
                       events := st.events ++
                         [Event.granted t.cid,
                          Event.settled t.cid (Outcome.rejected .notConnected),
                          Event.completed t.cid] } hc hlen2]
      simp [hw, ncEvents]

theorem ncEvents_no_sent (l : List Task) : ∀ c r, Event.sent c r ∉ ncEvents l := by
  induction l with
  | nil => intro c r; simp [ncEvents]
  | cons t rest ih =>
    intro c r
    simp only [ncEvents, List.mem_append, List.mem_cons]
    push_neg
    refine ⟨⟨by simp, by simp, by simp, by simp⟩, ih c r⟩

theorem alookup_map_value {α β γ : Type} [DecidableEq α] (f : β → γ) (l : List (α × β))
    (k : α) :
    alookup (l.map (fun kv => (kv.1, f kv.2))) k = (alookup l k).map f := by
  induction l with
  | nil => rfl
  | cons kv rest ih =>
    obtain ⟨k1, v1⟩ := kv
    by_cases h : k1 = k <;> simp [alookup_cons, h, ih]

/-! # Claim theorems -/

/-- **C1** (corrected, counterexample).  The claim states that a command
acknowledged "accepted, not yet finished" (defined `success`, empty `msg`)
keeps the execution slot, `complete()` is not called before the terminal
state, and consequently a later command never begins before an earlier one
terminates.  The code does the opposite: source line 902 calls
`this.queue.taskFinished()` *before* the recursive `comInverter` call,
which re-enters the queue at the tail.  Concretely, with commands 0 and 1
submitted in that order and command 0's first round-trip acknowledged
incomplete, command 1's request is sent (and command 1 even settles)
before command 0 settles, and the slot release for command 0 precedes
command 0's settlement — both orderings the claim forbids. -/
theorem C1_later_command_overtakes_retry :
    beforeFirst (isSentOf 1) (isSettledOf 0) c1Run.events = true ∧
    beforeFirst (isCompletedOf 0) (isSettledOf 0) c1Run.events = true := by decide

/-- **C1** (amended).  On an "accepted, not yet finished" acknowledgment
the executor releases the slot (`taskFinished`, traced as `completed`) and
re-submits the re-validated `paramorgi` as a *new tail entry* of the queue
with the same command identity; the formerly next entry therefore runs
first.  (That the re-issued request is identical is C8.) -/
theorem C1_retry_releases_slot_and_requeues_at_tail {reg : Registry} {fuel : Nat} {st : St}
    {t : Task} {rest : List Task} {p : Payload} {rs : List TResp} {u : AList}
    {cr : Option (Payload → Payload)}
    (hw : st.waiting = t :: rest) (hc : st.connected = true)
    (hr : st.responses = .ok p :: rs) (hs : p.success.isSome = true) (hm : p.msg = some "")
    (hv : comInverterValidate (alookup reg t.ty) t.ty t.po = .ok (u, cr)) :
    runQueue reg (fuel + 1) st =
      runQueue reg fuel
        { st with
            waiting := rest ++
              [{ cid := t.cid, ty := t.ty, po := { t.po with url := u }, checkRet := cr }],
            responses := rs,
            events := st.events ++
              [.granted t.cid, .sent t.cid t.po.url, .completed t.cid] } := by
  rw [runQueue_retry hw hc hr hs hm, submit_ok hv]

/-- Witness for the amended C1: the retry step applied at a concrete
slot-holding read command whose acknowledgment is incomplete. -/
theorem C1_retry_releases_slot_witness :
    runQueue demoReg 1 c1StA =
      runQueue demoReg 0
        { c1StA with
            waiting := [] ++
              [{ cid := c1TaskA.cid, ty := c1TaskA.ty,
                 po := { c1TaskA.po with url := c1UrlA }, checkRet := demoDesc.parseRet }],
            responses := [],
            events := c1StA.events ++
              [.granted c1TaskA.cid, .sent c1TaskA.cid c1TaskA.po.url,
               .completed c1TaskA.cid] } :=
  C1_retry_releases_slot_and_requeues_at_tail rfl rfl rfl rfl rfl rfl

/-- **C2** (confirmed).  Whatever the registry, the submitted batch, the
transport oracle and the step budget: once the queue has drained (the
transport contract guarantees every send is eventually answered, so a
sufficient budget exists), every submitted command id with distinct ids
has exactly one delivered outcome — resolved or rejected, never both,
never neither. -/
theorem C2_command_settles_exactly_once (reg : Registry) (connected : Bool)
    (cmds : List (Nat × String × ParamOrgi)) (responses : List TResp) (fuel : Nat) (c : Nat)
    (hmem : c ∈ cmds.map Prod.fst) (hnodup : (cmds.map Prod.fst).Nodup)
    (hdone : (runSystem reg connected cmds responses fuel).waiting = []) :
    ∃ o, outsFor c (runSystem reg connected cmds responses fuel).settled = [o] := by
  have hlc : liveCount c (runSystem reg connected cmds responses fuel) =
      (cmds.map Prod.fst).count c := by
    unfold runSystem
    rw [runQueue_liveCount, submitAll_liveCount]
    simp [liveCount, initSt, pendingCount]
  have hcount : (cmds.map Prod.fst).count c = 1 := List.count_eq_one_of_mem hnodup hmem
  rw [hcount] at hlc
  unfold liveCount at hlc
  have hpend : pendingCount c (runSystem reg connected cmds responses fuel).waiting = 0 := by
    rw [hdone]
    rfl
  rw [hpend] at hlc
  cases ho : outsFor c (runSystem reg connected cmds responses fuel).settled with
  | nil =>
    rw [ho] at hlc
    simp at hlc
  | cons o tail =>
    rw [ho] at hlc
    simp only [List.length_cons] at hlc
    have htl : tail = [] := List.length_eq_zero.mp (by omega)
    exact ⟨o, by rw [htl]⟩

/-- Witness for C2: a concrete one-command run that drains delivers
exactly one outcome to command 0. -/
theorem C2_command_settles_witness :
    (outsFor 0 (runSystem demoReg true [(0, "tlx", getInverterSettingPO "time" "SN1")]
      [.ok { success := some true, msg := some "done", data := "x" }] 5).settled).length
      = 1 := by
  obtain ⟨o, ho⟩ := C2_command_settles_exactly_once demoReg true
    [(0, "tlx", getInverterSettingPO "time" "SN1")]
    [.ok { success := some true, msg := some "done", data := "x" }] 5 0
    (by decide) (by decide) (by rfl)
  rw [ho]
  rfl

/-- **C3** (corrected, counterexample).  The claim states that a transport
failure makes `comInverter` set the session's connected flag to false.
The `.catch` handler of `comInverter` (source lines 927-930) — unlike
every other request method in the file, including `comDataLogger` — does
*not* touch `this.connected`: after a transport error the command is
rejected with that error and the queue drains, but `connected` is still
`true`. -/
theorem C3_transport_error_leaves_connected :
    c3Run.connected = true ∧
    c3Run.settled = [(0, .rejected (.transport "boom"))] ∧
    c3Run.waiting = [] := by
  refine ⟨by decide, by decide, by rfl⟩

/-- **C3** (amended).  On a transport failure the command's promise is
rejected with the transport error and the slot is released so the queue
drains — but the connected flag is left unchanged (here: still `true`). -/
theorem C3_transport_failure_rejects_and_drains {reg : Registry} {fuel : Nat} {st : St}
    {t : Task} {rest : List Task} {m : String} {rs : List TResp}
    (hw : st.waiting = t :: rest) (hc : st.connected = true)
    (hr : st.responses = .err m :: rs) :
    runQueue reg (fuel + 1) st =
      runQueue reg fuel
        { st with waiting := rest, responses := rs,
                  settled := st.settled ++ [(t.cid, .rejected (.transport m))],
                  events := st.events ++ [.granted t.cid, .sent t.cid t.po.url] ++
                    [.settled t.cid (.rejected (.transport m)), .completed t.cid] } ∧
    (runQueue reg (fuel + 1) st).connected = true := by
  constructor
  · rw [runQueue_err hw hc hr]
    rfl
  · rw [runQueue_connected]
    exact hc

/-- Witness for the amended C3 at a concrete state. -/
theorem C3_transport_failure_witness :
    runQueue demoReg 1 c3StA =
      runQueue demoReg 0
        { c3StA with waiting := [], responses := [],
                     settled := c3StA.settled ++ [(c1TaskA.cid, .rejected (.transport "boom"))],
                     events := c3StA.events ++
                       [.granted c1TaskA.cid, .sent c1TaskA.cid c1TaskA.po.url] ++
                       [.settled c1TaskA.cid (.rejected (.transport "boom")),
                        .completed c1TaskA.cid] } ∧
    (runQueue demoReg 1 c3StA).connected = true :=
  C3_transport_failure_rejects_and_drains rfl rfl rfl

/-- **C4** (confirmed).  A call whose validation phase fails — unknown
device type or function, missing or invalid declared parameter — is
rejected synchronously with an error that names the offending
action/function/field (the four naming error kinds are the only errors the
validation phase can produce), `queue.addTask` is never reached, and
neither the waiting list nor the transport oracle is touched, so queue
ordering of other commands is unaffected. -/
theorem C4_validation_failure_rejects_before_queue {reg : Registry} {ty : String}
    {cid : Nat} {po : ParamOrgi} {st : St} {e : GError}
    (h : comInverterValidate (alookup reg ty) ty po = .error e) :
    submit reg ty cid po st =
      { st with settled := st.settled ++ [(cid, .rejected e)],
                events := st.events ++ [.settled cid (.rejected e)] } ∧
    (submit reg ty cid po st).waiting = st.waiting ∧
    (submit reg ty cid po st).responses = st.responses ∧
    isNamingError e = true := by
  refine ⟨submit_error h, ?_, ?_, validate_error_naming h⟩
  · rw [submit_error h]
  · rw [submit_error h]

/-- Witness for C4: an unknown device type is rejected before any queue
interaction. -/
theorem C4_validation_failure_witness :
    submit demoReg "xyz" 0 (getInverterSettingPO "time" "SN1") (initSt true []) =
      { initSt true [] with
          settled := (initSt true []).settled ++
            [(0, .rejected (.unknownAction "readParam" "xyz"))],
          events := (initSt true []).events ++
            [.settled 0 (.rejected (.unknownAction "readParam" "xyz"))] } ∧
    (submit demoReg "xyz" 0 (getInverterSettingPO "time" "SN1") (initSt true [])).waiting =
      (initSt true []).waiting ∧
    (submit demoReg "xyz" 0 (getInverterSettingPO "time" "SN1") (initSt true [])).responses =
      (initSt true []).responses ∧
    isNamingError (.unknownAction "readParam" "xyz") = true :=
  C4_validation_failure_rejects_before_queue rfl

/-- **C5** (confirmed).  When the session is disconnected, every waiting
command — however many — is granted the slot in submission order and
immediately rejected with the not-connected error; the transport oracle is
never consumed and the appended trace contains no send event. -/
theorem C5_disconnected_rejects_in_order (reg : Registry) (fuel : Nat) (st : St)
    (hc : st.connected = false) (hlen : st.waiting.length ≤ fuel) :
    (runQueue reg fuel st).settled =
        st.settled ++ st.waiting.map (fun t => (t.cid, Outcome.rejected .notConnected)) ∧
    (runQueue reg fuel st).responses = st.responses ∧
    (runQueue reg fuel st).events = st.events ++ ncEvents st.waiting ∧
    (∀ c r, Event.sent c r ∉ ncEvents st.waiting) := by
  rw [runQueue_disconnected reg fuel st hc hlen]
  exact ⟨rfl, rfl, rfl, ncEvents_no_sent st.waiting⟩

/-- Witness for C5: two back-to-back commands on a disconnected session
both reject, in order, without consuming the oracle. -/
theorem C5_disconnected_witness :
    (runQueue demoReg 2 c5StA).settled =
        c5StA.settled ++ c5StA.waiting.map (fun t => (t.cid, Outcome.rejected .notConnected)) ∧
    (runQueue demoReg 2 c5StA).responses = c5StA.responses ∧
    (runQueue demoReg 2 c5StA).events = c5StA.events ++ ncEvents c5StA.waiting ∧
    (∀ c r, Event.sent c r ∉ ncEvents c5StA.waiting) :=
  C5_disconnected_rejects_in_order demoReg 2 c5StA rfl (by decide)

/-- **C6** (confirmed).  A structured acknowledgment with no `success`
property — the shape `comInverter`'s else-if branch treats as the explicit
server-side rejection — rejects the slot-holding command with an error
carrying the decoded payload and releases the slot; and provided the
command id is fresh (no outcome delivered yet, no other entry carrying
it), the rejection is that command's *only* delivered outcome for the
whole rest of the run: a rejection payload is never resolved as success. -/
theorem C6_server_rejection_never_resolves {reg : Registry} {fuel : Nat} {st : St} {t : Task}
    {rest : List Task} {p : Payload} {rs : List TResp}
    (hw : st.waiting = t :: rest) (hc : st.connected = true)
    (hr : st.responses = .ok p :: rs) (hs : p.success = none)
    (hfresh : outsFor t.cid st.settled = []) (hpend : pendingCount t.cid rest = 0) :
    outsFor t.cid (runQueue reg (fuel + 1) st).settled =
      [.rejected (.serverReject p)] := by
  rw [runQueue_serverReject hw hc hr hs]
  set st1 := settleTask st t rest rs (.rejected (.serverReject p))
    [.granted t.cid, .sent t.cid t.po.url] with hst1
  have h1 : liveCount t.cid st1 = 1 := by
    simp [hst1, liveCount, settleTask, hfresh, hpend]
  have hlc := runQueue_liveCount reg t.cid fuel st1
  rw [h1] at hlc
  obtain ⟨l, hl⟩ := runQueue_settled_prefix reg fuel st1
  have hsets : st1.settled = st.settled ++ [(t.cid, .rejected (.serverReject p))] := rfl
  have hout : outsFor t.cid (runQueue reg fuel st1).settled =
      [.rejected (.serverReject p)] ++ outsFor t.cid l := by
    rw [hl, hsets, List.append_assoc, outsFor_append, hfresh]
    simp [outsFor]
  have hlen0 : (outsFor t.cid l).length = 0 := by
    unfold liveCount at hlc
    rw [hout] at hlc
    simp only [List.length_append, List.length_cons, List.length_nil] at hlc
    omega
  rw [hout, List.length_eq_zero.mp hlen0]
  rfl

/-- Witness for C6: a concrete rejection payload settles its command with
the payload-carrying rejection and nothing else. -/
theorem C6_server_rejection_witness :
    outsFor 0 (runQueue demoReg 1 c6StA).settled =
      [.rejected (.serverReject c6Payload)] :=
  @C6_server_rejection_never_resolves demoReg 0 c6StA c1TaskA [] c6Payload []
    rfl rfl rfl rfl rfl rfl

/-- **C7** (corrected, counterexample).  The claim states that on terminal
success the result parser is invoked whenever the schema descriptor
declares one.  But `checkRet` is captured only inside the
`typeof param.paramId !== 'undefined'` branch (source lines 855-857), and
the url object `setInverterSetting` builds has no `paramId` property — so
a write command on the `time` descriptor, which *does* declare a parser,
resolves with the raw payload: the parser (which visibly transforms the
payload) is never invoked. -/
theorem C7_write_parser_not_invoked :
    c7Run.settled =
      [(0, .resolved { success := some true, msg := some "done", data := "raw" })] ∧
    demoParse { success := some true, msg := some "done", data := "raw" } ≠
      { success := some true, msg := some "done", data := "raw" } ∧
    demoDesc.parseRet.isSome = true := by decide

/-- **C7** (amended).  On terminal success the resolved value is the
captured `checkRet` applied to the raw payload when one was captured, and
the raw payload otherwise; and for every command built by
`setInverterSetting` (whose url object lacks `paramId`), the captured
`checkRet` is `none` even when the descriptor declares a parser.  The
parser is applied in no other acknowledgment branch. -/
theorem C7_parser_invoked_only_with_paramId {gt : Option GrowattTypeEntry}
    {ty2 f2 sn : String} {v : AList} {u : AList} {cr : Option (Payload → Payload)}
    {reg : Registry} {fuel : Nat} {st : St} {t : Task} {rest : List Task} {p : Payload}
    {rs : List TResp}
    (hv : comInverterValidate gt ty2 (setInverterSettingPO f2 sn v) = .ok (u, cr))
    (hw : st.waiting = t :: rest) (hc : st.connected = true)
    (hr : st.responses = .ok p :: rs) (hs : p.success.isSome = true)
    (hm : ¬ p.msg = some "") :
    cr = none ∧
    runQueue reg (fuel + 1) st =
      runQueue reg fuel (settleTask st t rest rs
        (.resolved (match t.checkRet with | some f3 => f3 p | none => p))
        [.granted t.cid, .sent t.cid t.po.url]) := by
  constructor
  · exact @validate_checkRet gt ty2 (setInverterSettingPO f2 sn v) u cr rfl hv
  · exact runQueue_terminal hw hc hr hs hm

/-- Witness for the amended C7 at a concrete write command and terminal
acknowledgment. -/
theorem C7_parser_gating_witness :
    (none : Option (Payload → Payload)) = none ∧
    runQueue demoReg 1 c7StA =
      runQueue demoReg 0 (settleTask c7StA c7TaskA [] []
        (.resolved { success := some true, msg := some "done", data := "raw" })
        [.granted c7TaskA.cid, .sent c7TaskA.cid c7TaskA.po.url]) :=
  @C7_parser_invoked_only_with_paramId (alookup demoReg "tlx") "tlx" "time" "SN1"
    [("param1", "12:00")] c7Url none demoReg 0 c7StA c7TaskA []
    { success := some true, msg := some "done", data := "raw" } []
    rfl rfl rfl rfl rfl (by decide)

/-- **C8** (confirmed).  In the pure embedding the validation/encoding
step is a function, so two runs on identical inputs are identical by
definition; the substantive content — what a retry relies on — is that
re-running the step on the `paramorgi` it has already mutated (exactly
what the recursive `comInverter` call does) reproduces the *same* encoded
url and the same captured parser, so the re-issued request is identical to
the first.  Hypotheses: the url object has distinct keys (JS objects) and
the descriptor is well-formed per the spec's data model (distinct declared
names, none colliding with the url scaffolding fields). -/
theorem C8_encoding_deterministic_for_retry {g : GrowattTypeEntry} {ty : String}
    {po : ParamOrgi} {u : AList} {cr : Option (Payload → Payload)}
    (hnd : (keysOf po.url).Nodup)
    (hgood : ∀ m b, g.comInverter = some m → alookup m po.func = some b → GoodDesc b)
    (hres : comInverterValidate (some g) ty po = .ok (u, cr)) :
    comInverterValidate (some g) ty { po with url := u } = .ok (u, cr) :=
  validate_idem hnd hgood hres

/-- Witness for C8: re-validating a concrete validated read command
reproduces the identical encoded request and parser. -/
theorem C8_encoding_deterministic_witness :
    comInverterValidate (some demoEntry) "tlx"
        { getInverterSettingPO "time" "SN1" with url := c1UrlA } =
      .ok (c1UrlA, demoDesc.parseRet) :=
  C8_encoding_deterministic_for_retry (by decide)
    (by
      intro m b h1 h2
      injection h1 with h1
      subst h1
      simp [getInverterSettingPO, alookup_cons] at h2
      subst h2
      exact ⟨by decide, by decide, by decide, by decide⟩)
    rfl

/-- **C9** (corrected, counterexample).  The claim states the structure
`getInverterCommunication` returns is read-only with respect to the
registry.  The copy is shallow (`Object.assign`): the per-function
wrappers and `param` maps are fresh, but the parameter-descriptor
*objects* are the registry's own.  Concretely, the returned map holds
store reference 0 — the very reference the registry holds — so mutating
that descriptor object through the returned structure changes what the
registry denotes. -/
theorem C9_shared_descriptor_mutation_visible :
    getInverterCommunication c9Tbl =
      [("time", { name := "Time", param := [("param1", 0)] })] ∧
    readRegistryView c9Mut c9Tbl ≠ readRegistryView c9Store c9Tbl := by decide

/-- **C9** (amended).  The returned structure is a one-level copy: each
function key maps to a fresh wrapper whose `name`/`isSubread`/`subRead`
are copied values, but whose `param` map holds exactly the registry
descriptor's parameter references — so descriptor objects are shared, and
mutating one through the returned structure is visible in the registry;
the registry is otherwise never written by the subsystem's operations. -/
theorem C9_shallow_copy_shares_param_refs (tbl : TypeEntryRefs) (key : String)
    (d : ComDescRefs) (h : alookup tbl key = some d) :
    alookup (getInverterCommunication tbl) key = some (retDescOf d) ∧
    (retDescOf d).param = d.param := by
  constructor
  · unfold getInverterCommunication
    rw [alookup_map_value retDescOf, h]
    rfl
  · rfl

/-- Witness for the amended C9 at the concrete one-function table. -/
theorem C9_shallow_copy_witness :
    alookup (getInverterCommunication c9Tbl) "time" =
      some (retDescOf { name := "Time", param := [("param1", 0)] }) ∧
    (retDescOf { name := "Time", param := [("param1", 0)] }).param = [("param1", 0)] :=
  C9_shallow_copy_shares_param_refs c9Tbl "time"
    { name := "Time", param := [("param1", 0)] } rfl

/-- **C10** (confirmed).  Caller-supplied values whose names are not
declared in the function's parameter schema are silently ignored:
appending undeclared extras to the value map leaves the whole
validation/encoding result unchanged (same wire request, same parser, no
new validation error), and every wire field of an encoded write request is
one of the fixed url fields (`action`, `serialNum`, `type`) or a declared
parameter name. -/
theorem C10_undeclared_values_ignored {g : GrowattTypeEntry} {ty f sn : String}
    {vals extra : AList} {b : ComDesc}
    (hb : (gtBaseField g "comInverter").bind (fun m => alookup m f) = some b)
    (hdisj : ∀ k ∈ keysOf extra, k ∉ declaredNames b) :
    comInverterValidate (some g) ty (setInverterSettingPO f sn (vals ++ extra)) =
      comInverterValidate (some g) ty (setInverterSettingPO f sn vals) ∧
    (∀ u cr, comInverterValidate (some g) ty (setInverterSettingPO f sn vals) = .ok (u, cr) →
      ∀ k ∈ keysOf u, k = "action" ∨ k = "serialNum" ∨ k = "type" ∨
        k ∈ declaredNames b) := by
  constructor
  · have hagree : ∀ n ∈ declaredNames b, alookup vals n = alookup (vals ++ extra) n := by
      intro n hn
      rw [alookup_append_not_mem vals (fun hk => hdisj n hk hn)]
    exact @validate_congr g ty (setInverterSettingPO f sn vals) b vals (vals ++ extra)
      hb rfl hagree
  · intro u cr hok k hk
    rcases @validate_keys g ty (setInverterSettingPO f sn vals) b u cr hb hok k hk
      with h1 | h1 | h1
    · simp only [setInverterSettingPO, keysOf_cons, keysOf_nil, List.mem_cons,
        List.not_mem_nil, or_false] at h1
      rcases h1 with h2 | h2 | h2
      · exact Or.inl h2
      · exact Or.inr (Or.inl h2)
      · exact Or.inr (Or.inr (Or.inl h2))
    · exact Or.inl h1
    · exact Or.inr (Or.inr (Or.inr h1))

/-- Witness for C10: an undeclared `junk` value changes nothing about a
concrete write encoding, and the encoded request's fields are exactly the
fixed url fields plus the declared `param1`. -/
theorem C10_undeclared_values_witness :
    comInverterValidate (some demoEntry) "tlx"
        (setInverterSettingPO "time" "SN1" ([("param1", "12:00")] ++ [("junk", "1")])) =
      comInverterValidate (some demoEntry) "tlx"
        (setInverterSettingPO "time" "SN1" [("param1", "12:00")]) ∧
    ("param1" = "action" ∨ "param1" = "serialNum" ∨ "param1" = "type" ∨
      "param1" ∈ declaredNames demoDesc) :=
  ⟨(@C10_undeclared_values_ignored demoEntry "tlx" "time" "SN1" [("param1", "12:00")]
      [("junk", "1")] demoDesc rfl (by decide)).1,
   (@C10_undeclared_values_ignored demoEntry "tlx" "time" "SN1" [("param1", "12:00")]
      [("junk", "1")] demoDesc rfl (by decide)).2 c7Url none rfl "param1" (by decide)⟩

end Growatt
